import Mathlib

/-!
Verification development for the podcast-fetcher notification/transcription core.

The Python source is shallowly embedded: ORM rows become Lean structures, the
relational store becomes a `DB` record of lists (list order models row order /
insertion order, matching the unordered SELECTs plus Python iteration order),
timestamps become `Int` seconds (a `timedelta` of `days=n` is `n * 86400`
seconds), and every call to `datetime.now` is a read of an explicit clock
`Nat → Int` indexed by the number of reads made so far in the run.  External
collaborators (Telegram delivery, the LLM summarizer, S3, AWS Transcribe,
`feedparser` entries, `dateutil` date parsing, `hashlib.md5`, `str(datetime)`
formatting) are parameters of the embedded functions: they are outside the
repository and only their results flow into the logic.  Audit-only columns that
no repository logic ever reads (`created_at` on every table, `updated_at` on
tables other than `usersubscription`) are not carried.
-/

namespace PodcastFetcher

/-- Clock: the value returned by the n-th `datetime.now(timezone.utc)` call of a run. -/
abbrev Clock := Nat → Int

/-- models.py `Podcast` (fields read by the scheduling/transcription logic). -/
structure Podcast where
  id : Int
  title : String
  rss_feed : String
  username : Option String
deriving Repr, DecidableEq

/-- models.py `Episode`. -/
structure Episode where
  id : String
  title : String
  published : Int
  summary : Option String
  link : String
  audio_url : Option String
  transcript_url : Option String
  transcript : Option String
  podcast_id : Option Int
deriving Repr, DecidableEq

/-- models.py `UserSubscription`. -/
structure UserSubscription where
  username : String
  podcast_id : Int
  subscribed_at : Int
  is_active : Bool
  notification_preferences : String
  updated_at : Int
deriving Repr, DecidableEq

/-- models.py `ProcessedEpisode` (the delivery idempotency record). -/
structure ProcessedEpisode where
  episode_id : String
  username : String
  processed_at : Int
  summary_sent : Bool
deriving Repr, DecidableEq

/-- models.py `TranscriptionJob`. -/
structure TranscriptionJob where
  job_name : String
  audio_url : String
  s3_uri : String
  transcript_uri : Option String
  status : String
deriving Repr, DecidableEq

/-- The relational store (single source of truth; §3 of the data model). -/
structure DB where
  podcasts : List Podcast
  episodes : List Episode
  subscriptions : List UserSubscription
  processed : List ProcessedEpisode
  jobs : List TranscriptionJob
deriving Repr, DecidableEq

/-! ## database.py : idempotency records and subscriptions -/

/-- database.py `is_episode_processed_for_user`: a `SELECT ... first()` existence
check on the (episode_id, username) pair. -/
def is_episode_processed_for_user (processed : List ProcessedEpisode)
    (episode_id username : String) : Bool :=
  processed.any (fun p => p.episode_id == episode_id && p.username == username)

/-- Update of the first matching `ProcessedEpisode` row (the ORM updates the row
returned by `.first()`). -/
def setProcessedFirst (l : List ProcessedEpisode) (episode_id username : String)
    (now : Int) (summary_sent : Bool) : List ProcessedEpisode :=
  match l with
  | [] => []
  | p :: rest =>
    if p.episode_id == episode_id && p.username == username then
      { p with processed_at := now, summary_sent := summary_sent } :: rest
    else
      p :: setProcessedFirst rest episode_id username now summary_sent

/-- database.py `mark_episode_processed`: update the existing row if present,
otherwise insert a fresh one. -/
def mark_episode_processed (db : DB) (now : Int) (episode_id username : String)
    (summary_sent : Bool) : DB :=
  if is_episode_processed_for_user db.processed episode_id username then
    { db with processed := setProcessedFirst db.processed episode_id username now summary_sent }
  else
    { db with processed := db.processed ++
        [{ episode_id := episode_id, username := username,
           processed_at := now, summary_sent := summary_sent }] }

/-- Update of the first matching subscription row (reactivation branch of
database.py `subscribe_user_to_podcast`). -/
def reactivateFirst (l : List UserSubscription) (username : String) (podcast_id : Int)
    (prefs : String) (now : Int) : List UserSubscription :=
  match l with
  | [] => []
  | s :: rest =>
    if s.username == username && s.podcast_id == podcast_id then
      { s with is_active := true, notification_preferences := prefs, updated_at := now } :: rest
    else
      s :: reactivateFirst rest username podcast_id prefs now

/-- database.py `subscribe_user_to_podcast`. -/
def subscribe_user_to_podcast (db : DB) (now : Int) (username : String)
    (podcast_id : Int) (prefs : String) : DB × Bool × String :=
  match db.subscriptions.find? (fun s => s.username == username && s.podcast_id == podcast_id) with
  | some existing =>
    if existing.is_active then
      (db, false, "You're already subscribed to this podcast!")
    else
      ({ db with subscriptions := reactivateFirst db.subscriptions username podcast_id prefs now },
        true, "Subscription reactivated!")
  | none =>
    ({ db with subscriptions := db.subscriptions ++
        [{ username := username, podcast_id := podcast_id, subscribed_at := now,
           is_active := true, notification_preferences := prefs, updated_at := now }] },
      true, "Successfully subscribed!")

/-- Update of the first matching subscription row (deactivation branch of
database.py `unsubscribe_user_from_podcast`). -/
def deactivateFirst (l : List UserSubscription) (username : String) (podcast_id : Int)
    (now : Int) : List UserSubscription :=
  match l with
  | [] => []
  | s :: rest =>
    if s.username == username && s.podcast_id == podcast_id then
      { s with is_active := false, updated_at := now } :: rest
    else
      s :: deactivateFirst rest username podcast_id now

/-- database.py `unsubscribe_user_from_podcast`. -/
def unsubscribe_user_from_podcast (db : DB) (now : Int) (username : String)
    (podcast_id : Int) : DB × Bool × String :=
  match db.subscriptions.find? (fun s => s.username == username && s.podcast_id == podcast_id) with
  | some subscription =>
    if !subscription.is_active then
      (db, false, "You're already unsubscribed from this podcast.")
    else
      ({ db with subscriptions := deactivateFirst db.subscriptions username podcast_id now },
        true, "Successfully unsubscribed!")
  | none => (db, false, "You're not subscribed to this podcast.")

/-- Update of the first matching subscription row (database.py
`update_subscription_preferences`). -/
def setPrefsFirst (l : List UserSubscription) (username : String) (podcast_id : Int)
    (prefs : String) (now : Int) : List UserSubscription :=
  match l with
  | [] => []
  | s :: rest =>
    if s.username == username && s.podcast_id == podcast_id then
      { s with notification_preferences := prefs, updated_at := now } :: rest
    else
      s :: setPrefsFirst rest username podcast_id prefs now

/-- database.py `update_subscription_preferences`. -/
def update_subscription_preferences (db : DB) (now : Int) (username : String)
    (podcast_id : Int) (prefs : String) : DB × Bool × String :=
  match db.subscriptions.find? (fun s => s.username == username && s.podcast_id == podcast_id) with
  | some _ =>
    ({ db with subscriptions := setPrefsFirst db.subscriptions username podcast_id prefs now },
      true, "Preferences updated!")
  | none => (db, false, "Subscription not found.")

/-- Number of subscription rows for a fixed (username, podcast) pair. -/
def subRowCount (db : DB) (username : String) (podcast_id : Int) : Nat :=
  (db.subscriptions.filter (fun s => s.username == username && s.podcast_id == podcast_id)).length

/-- One recorded invocation of `subscribe_user_to_podcast`. -/
structure SubCall where
  now : Int
  username : String
  podcast_id : Int
  prefs : String

/-- A sequence of subscribe calls applied to the store. -/
def runSubscribeCalls (db : DB) (calls : List SubCall) : DB :=
  calls.foldl (fun d c => (subscribe_user_to_podcast d c.now c.username c.podcast_id c.prefs).1) db

theorem reactivateFirst_key_fields (l : List UserSubscription) (u : String) (p : Int)
    (prefs : String) (now : Int) :
    (reactivateFirst l u p prefs now).map (fun s => (s.username, s.podcast_id)) =
      l.map (fun s => (s.username, s.podcast_id)) := by
  induction l with
  | nil => rfl
  | cons s rest ih =>
    simp only [reactivateFirst]
    split <;> simp [ih]

theorem filter_length_of_key_fields_eq (l l' : List UserSubscription) (u : String) (p : Int)
    (h : l'.map (fun s => (s.username, s.podcast_id)) = l.map (fun s => (s.username, s.podcast_id))) :
    (l'.filter (fun s => s.username == u && s.podcast_id == p)).length =
      (l.filter (fun s => s.username == u && s.podcast_id == p)).length := by
  induction l generalizing l' with
  | nil =>
    cases l' with
    | nil => rfl
    | cons a t => simp at h
  | cons s rest ih =>
    cases l' with
    | nil => simp at h
    | cons a t =>
      simp only [List.map_cons, List.cons.injEq, Prod.mk.injEq] at h
      obtain ⟨⟨h1, h2⟩, h3⟩ := h
      simp only [List.filter_cons, h1, h2]
      split <;> simp [ih t h3]

theorem subscribe_count_le (db : DB) (now : Int) (u' : String) (p' : Int) (prefs : String)
    (u : String) (p : Int) :
    subRowCount (subscribe_user_to_podcast db now u' p' prefs).1 u p ≤
      max (subRowCount db u p) 1 := by
  unfold subscribe_user_to_podcast
  cases hf : db.subscriptions.find? (fun s => s.username == u' && s.podcast_id == p') with
  | some existing =>
    by_cases ha : existing.is_active
    · simp [ha, le_max_left]
    · simp only [ha, if_neg, Bool.false_eq_true, not_false_eq_true, if_false]
      unfold subRowCount
      simp only
      rw [filter_length_of_key_fields_eq db.subscriptions _ u p
        (reactivateFirst_key_fields db.subscriptions u' p' prefs now)]
      exact le_max_left _ _
  | none =>
    simp only
    unfold subRowCount
    simp only [List.filter_append, List.length_append]
    by_cases hp : (u = u' ∧ p = p')
    · obtain ⟨rfl, rfl⟩ := hp
      have hnil : db.subscriptions.filter (fun s => s.username == u && s.podcast_id == p) = [] := by
        rw [List.filter_eq_nil_iff]
        intro s hs
        have := List.find?_eq_none.mp hf s hs
        simpa using this
      rw [hnil]
      simp
    · have : (List.filter (fun s => s.username == u && s.podcast_id == p)
          [({ username := u', podcast_id := p', subscribed_at := now, is_active := true,
              notification_preferences := prefs, updated_at := now } : UserSubscription)]) = [] := by
        simp only [List.filter_cons, List.filter_nil]
        split
        · rename_i hcond
          simp only [Bool.and_eq_true, beq_iff_eq] at hcond
          exact absurd ⟨hcond.1.symm, hcond.2.symm⟩ hp
        · rfl
      rw [this]
      simp [le_max_left]

theorem runSubscribeCalls_at_most_one (db : DB) (calls : List SubCall) (u : String) (p : Int)
    (h : subRowCount db u p ≤ 1) :
    subRowCount (runSubscribeCalls db calls) u p ≤ 1 := by
  induction calls generalizing db with
  | nil => exact h
  | cons c rest ih =>
    have hstep : runSubscribeCalls db (c :: rest) =
        runSubscribeCalls (subscribe_user_to_podcast db c.now c.username c.podcast_id c.prefs).1
          rest := rfl
    rw [hstep]
    apply ih
    have := subscribe_count_le db c.now c.username c.podcast_id c.prefs u p
    omega

theorem reactivateFirst_length (l : List UserSubscription) (u : String) (p : Int)
    (prefs : String) (now : Int) :
    (reactivateFirst l u p prefs now).length = l.length := by
  induction l with
  | nil => rfl
  | cons s rest ih =>
    simp only [reactivateFirst]
    split <;> simp [ih]

theorem reactivateFirst_mem_updated (l : List UserSubscription) (u : String) (p : Int)
    (prefs : String) (now : Int) (ex : UserSubscription)
    (hf : l.find? (fun s => s.username == u && s.podcast_id == p) = some ex) :
    { ex with is_active := true, notification_preferences := prefs, updated_at := now } ∈
      reactivateFirst l u p prefs now := by
  induction l with
  | nil => simp at hf
  | cons s rest ih =>
    by_cases hc : (s.username == u && s.podcast_id == p) = true
    · simp only [List.find?, hc, Option.some.injEq] at hf
      cases hf
      simp only [reactivateFirst, if_pos hc]
      exact List.mem_cons_self _ _
    · have hc' : (s.username == u && s.podcast_id == p) = false := by
        simpa using hc
      simp only [List.find?, hc'] at hf
      simp only [reactivateFirst, if_neg hc]
      exact List.mem_cons_of_mem _ (ih hf)

/-- Claim C7: any sequence of subscribe calls leaves at most one subscription row
per (user, podcast) pair; a subscribe against an active subscription returns
failure with the already-subscribed message and mutates nothing; against an
inactive one it reactivates the row and overwrites its cadence without changing
the row count; with no existing row it inserts exactly one new row. -/
theorem claim_C7 :
    (∀ (db : DB) (calls : List SubCall) (u : String) (p : Int),
        subRowCount db u p ≤ 1 →
        subRowCount (runSubscribeCalls db calls) u p ≤ 1) ∧
    (∀ (db : DB) (now : Int) (u : String) (p : Int) (prefs : String) (ex : UserSubscription),
        db.subscriptions.find? (fun s => s.username == u && s.podcast_id == p) = some ex →
        ex.is_active = true →
        subscribe_user_to_podcast db now u p prefs =
          (db, false, "You're already subscribed to this podcast!")) ∧
    (∀ (db : DB) (now : Int) (u : String) (p : Int) (prefs : String) (ex : UserSubscription),
        db.subscriptions.find? (fun s => s.username == u && s.podcast_id == p) = some ex →
        ex.is_active = false →
        (subscribe_user_to_podcast db now u p prefs).1.subscriptions.length =
            db.subscriptions.length ∧
        { ex with is_active := true, notification_preferences := prefs, updated_at := now } ∈
            (subscribe_user_to_podcast db now u p prefs).1.subscriptions ∧
        (subscribe_user_to_podcast db now u p prefs).2 = (true, "Subscription reactivated!")) ∧
    (∀ (db : DB) (now : Int) (u : String) (p : Int) (prefs : String),
        db.subscriptions.find? (fun s => s.username == u && s.podcast_id == p) = none →
        subscribe_user_to_podcast db now u p prefs =
          ({ db with subscriptions := db.subscriptions ++
              [{ username := u, podcast_id := p, subscribed_at := now,
                 is_active := true, notification_preferences := prefs, updated_at := now }] },
            true, "Successfully subscribed!")) := by
  refine ⟨runSubscribeCalls_at_most_one, ?_, ?_, ?_⟩
  · intro db now u p prefs ex hf ha
    unfold subscribe_user_to_podcast
    rw [hf]
    simp [ha]
  · intro db now u p prefs ex hf ha
    have hres : subscribe_user_to_podcast db now u p prefs =
        ({ db with subscriptions := reactivateFirst db.subscriptions u p prefs now },
          true, "Subscription reactivated!") := by
      unfold subscribe_user_to_podcast
      rw [hf]
      simp [ha]
    rw [hres]
    exact ⟨reactivateFirst_length _ u p prefs now,
      reactivateFirst_mem_updated _ u p prefs now ex hf, rfl⟩
  · intro db now u p prefs hf
    unfold subscribe_user_to_podcast
    rw [hf]

/-- Concrete store used to witness claim C7: one active subscription of alice
to podcast 1. -/
def c7sub : UserSubscription :=
  { username := "alice", podcast_id := 1, subscribed_at := 0, is_active := true,
    notification_preferences := "immediate", updated_at := 0 }

/-- Concrete store used to witness claim C7. -/
def c7db : DB :=
  { podcasts := [], episodes := [], subscriptions := [c7sub], processed := [], jobs := [] }

/-- Witness for claim C7 at a concrete store and call sequence. -/
theorem claim_C7_witness :
    subRowCount c7db "alice" 1 ≤ 1 ∧
    subRowCount (runSubscribeCalls c7db
      [{ now := 7, username := "alice", podcast_id := 1, prefs := "weekly" },
       { now := 8, username := "bob", podcast_id := 1, prefs := "daily" }]) "alice" 1 ≤ 1 ∧
    subscribe_user_to_podcast c7db 5 "alice" 1 "daily" =
      (c7db, false, "You're already subscribed to this podcast!") :=
  ⟨by decide,
   claim_C7.1 c7db _ "alice" 1 (by decide),
   claim_C7.2.1 c7db 5 "alice" 1 "daily" c7sub (by decide) rfl⟩

/-! ## fetch_episodes_with_modal.py : the notification scheduler

The three `process_*_logic` functions read the store, call the external
delivery channel / summarizer, and write `ProcessedEpisode` rows.  External
outcomes are oracles: for the immediate path `oracle eid uname` is the success
of summarize-and-send for that episode/user (the body of
`process_episode_for_user` after its transcript check), for digests
`sendOk uname` is the success of `send_telegram_notification_sync` for that
user's digest message.  Every `datetime.now(timezone.utc)` call reads the next
value of the run's `Clock`. -/

/-- The `session.exec(select(Episode).where(...))` query shared by all three
notification paths: episodes of the podcast published at or after the cutoff
that have a non-null transcript. -/
def episodeQuery (episodes : List Episode) (pid : Int) (since : Int) : List Episode :=
  episodes.filter (fun e =>
    e.podcast_id == some pid && decide (since ≤ e.published) && e.transcript.isSome)

/-- fetch_episodes_with_modal.py `process_episode_for_user`, reduced to its
observable outcome: `False` when the transcript is falsy (None or empty string),
otherwise the external summarize-and-send outcome. -/
def process_episode_for_user (oracle : String → String → Bool) (e : Episode)
    (username : String) : Bool :=
  match e.transcript with
  | none => false
  | some t => if t == "" then false else oracle e.id username

/-- One `process_episode_for_user` invocation recorded by the immediate path. -/
structure Attempt where
  episode : Episode
  username : String
  success : Bool
deriving Repr, DecidableEq

/-- Threaded state of a notification run: the store, the number of clock reads
made so far, and the log of immediate notification attempts. -/
structure RunSt where
  db : DB
  k : Nat
  log : List Attempt
deriving Repr

/-- The `podcast_subscriptions` dict of `process_immediate_notifications_logic`:
group subscription usernames by podcast id, in first-seen order (Python dict
insertion order). -/
def groupByPodcast : List UserSubscription → List (Int × List String) →
    List (Int × List String)
  | [], m => m
  | sub :: rest, m =>
    let m1 := if m.any (fun kv => kv.1 == sub.podcast_id) then m
              else m ++ [(sub.podcast_id, [])]
    groupByPodcast rest
      (m1.map (fun kv => if kv.1 == sub.podcast_id then (kv.1, kv.2 ++ [sub.username]) else kv))

/-- Inner loop of the immediate path over one episode's subscribers: skip users
with an existing `ProcessedEpisode` row, otherwise attempt delivery and mark the
episode processed on success. -/
def immediateForUsers (clock : Clock) (oracle : String → String → Bool) (e : Episode) :
    List String → RunSt → RunSt
  | [], st => st
  | u :: us, st =>
    if is_episode_processed_for_user st.db.processed e.id u then
      immediateForUsers clock oracle e us st
    else
      let success := process_episode_for_user oracle e u
      let st' : RunSt :=
        if success then
          { db := mark_episode_processed st.db (clock st.k) e.id u true,
            k := st.k + 1, log := st.log ++ [{ episode := e, username := u, success := success }] }
        else
          { st with log := st.log ++ [{ episode := e, username := u, success := success }] }
      immediateForUsers clock oracle e us st'

/-- Loop of the immediate path over the queried episodes of one podcast. -/
def immediateForEpisodes (clock : Clock) (oracle : String → String → Bool)
    (usernames : List String) : List Episode → RunSt → RunSt
  | [], st => st
  | e :: es, st =>
    immediateForEpisodes clock oracle usernames es (immediateForUsers clock oracle e usernames st)

/-- Outer loop of the immediate path over the grouped podcasts: look the podcast
up, read `now`, query the 2-day window, then process episodes and subscribers. -/
def immediateForPodcasts (clock : Clock) (oracle : String → String → Bool) :
    List (Int × List String) → RunSt → RunSt
  | [], st => st
  | (pid, usernames) :: rest, st =>
    match st.db.podcasts.find? (fun pc => pc.id == pid) with
    | none => immediateForPodcasts clock oracle rest st
    | some _ =>
      let since := clock st.k - 2 * 86400
      let eps := episodeQuery st.db.episodes pid since
      immediateForPodcasts clock oracle rest
        (immediateForEpisodes clock oracle usernames eps { st with k := st.k + 1 })

/-- fetch_episodes_with_modal.py `process_immediate_notifications_logic`. -/
def process_immediate_notifications_logic (clock : Clock)
    (oracle : String → String → Bool) (db : DB) : DB × List Attempt :=
  let subs := db.subscriptions.filter (fun s =>
    s.is_active && s.notification_preferences == "immediate")
  let groups := groupByPodcast subs []
  let st := immediateForPodcasts clock oracle groups { db := db, k := 0, log := [] }
  (st.db, st.log)

/-! ### The daily / weekly digest paths

`process_daily_digest_logic` and `process_weekly_digest_logic` are verbatim
copies of each other except for the preference string, the lookback
(`timedelta(days=1)` vs `timedelta(days=7)`) and the digest text, so they are
embedded as one core parameterized by preference and window, with the digest
formatting absorbed into the per-user send oracle. -/

/-- The `user_episodes` dict: ensure a key exists (Python `if username not in
user_episodes: user_episodes[username] = []`). -/
def ensureKey (m : List (String × List Episode)) (u : String) :
    List (String × List Episode) :=
  if m.any (fun kv => kv.1 == u) then m else m ++ [(u, [])]

/-- Append episodes to a user's dict entry (Python
`user_episodes[username].append(episode)` inside the per-subscription loop). -/
def appendAt (m : List (String × List Episode)) (u : String) (es : List Episode) :
    List (String × List Episode) :=
  m.map (fun kv => if kv.1 == u then (kv.1, kv.2 ++ es) else kv)

/-- Dict lookup with empty-list default, used to state batch membership. -/
def lookupB (m : List (String × List Episode)) (u : String) : List Episode :=
  match m.find? (fun kv => kv.1 == u) with
  | some kv => kv.2
  | none => []

/-- First phase of a digest run: for each matching subscription, read `now`,
query the window, drop episodes already processed for the user, and extend the
user's dict entry. -/
def digestGather (window : Int) (clock : Clock) (db : DB) :
    List UserSubscription → Nat → List (String × List Episode) →
    List (String × List Episode) × Nat
  | [], k, m => (m, k)
  | sub :: rest, k, m =>
    let m1 := ensureKey m sub.username
    let since := clock k - window
    let eps := episodeQuery db.episodes sub.podcast_id since
    let newEps := eps.filter
      (fun e => !(is_episode_processed_for_user db.processed e.id sub.username))
    digestGather window clock db rest (k + 1) (appendAt m1 sub.username newEps)

/-- Marking every episode of a sent digest as processed (the loop after a
successful `send_telegram_notification_sync`). -/
def digestMarkAll (clock : Clock) (u : String) :
    List Episode → DB → Nat → DB × Nat
  | [], db, k => (db, k)
  | e :: es, db, k =>
    digestMarkAll clock u es (mark_episode_processed db (clock k) e.id u true) (k + 1)

/-- Second phase of a digest run: for each user with a non-empty episode list,
send the digest; on success mark all its episodes processed and count the send. -/
def digestSend (clock : Clock) (sendOk : String → Bool) :
    List (String × List Episode) → DB → Nat → Nat → DB × Nat × Nat
  | [], db, k, total => (db, k, total)
  | (u, eps) :: rest, db, k, total =>
    if eps.isEmpty then digestSend clock sendOk rest db k total
    else if sendOk u then
      let r := digestMarkAll clock u eps db k
      digestSend clock sendOk rest r.1 r.2 (total + 1)
    else digestSend clock sendOk rest db k total

/-- Result of a digest run: the store afterwards, the per-user batches
(`user_episodes`), and the number of digests sent. -/
structure DigestResult where
  db : DB
  batches : List (String × List Episode)
  total_sent : Nat
deriving Repr

/-- Common core of fetch_episodes_with_modal.py `process_daily_digest_logic`
and `process_weekly_digest_logic`. -/
def process_digest_logic (prefs : String) (window : Int) (clock : Clock)
    (sendOk : String → Bool) (db : DB) : DigestResult :=
  let subs := db.subscriptions.filter (fun s =>
    s.is_active && s.notification_preferences == prefs)
  let gathered := digestGather window clock db subs 0 []
  let sent := digestSend clock sendOk gathered.1 db gathered.2 0
  { db := sent.1, batches := gathered.1, total_sent := sent.2.2 }

/-- fetch_episodes_with_modal.py `process_daily_digest_logic`
(`timedelta(days=1)` window, "daily" preference). -/
def process_daily_digest_logic (clock : Clock) (sendOk : String → Bool) (db : DB) :
    DigestResult :=
  process_digest_logic "daily" 86400 clock sendOk db

/-- fetch_episodes_with_modal.py `process_weekly_digest_logic`
(`timedelta(days=7)` window, "weekly" preference). -/
def process_weekly_digest_logic (clock : Clock) (sendOk : String → Bool) (db : DB) :
    DigestResult :=
  process_digest_logic "weekly" (7 * 86400) clock sendOk db

/-! ### Store lemmas: marking is monotone and touches only `processed` -/

theorem mark_fields (db : DB) (now : Int) (eid u : String) (ss : Bool) :
    (mark_episode_processed db now eid u ss).episodes = db.episodes ∧
    (mark_episode_processed db now eid u ss).podcasts = db.podcasts ∧
    (mark_episode_processed db now eid u ss).subscriptions = db.subscriptions ∧
    (mark_episode_processed db now eid u ss).jobs = db.jobs := by
  unfold mark_episode_processed
  split <;> exact ⟨rfl, rfl, rfl, rfl⟩

theorem setProcessedFirst_pair (l : List ProcessedEpisode) (eid u : String)
    (now : Int) (ss : Bool) :
    (setProcessedFirst l eid u now ss).map (fun p => (p.episode_id, p.username)) =
      l.map (fun p => (p.episode_id, p.username)) := by
  induction l with
  | nil => rfl
  | cons p rest ih =>
    simp only [setProcessedFirst]
    split <;> simp [ih]

theorem is_processed_eq_map (l : List ProcessedEpisode) (a b : String) :
    is_episode_processed_for_user l a b =
      (l.map (fun p => (p.episode_id, p.username))).any (fun pr => pr.1 == a && pr.2 == b) := by
  induction l with
  | nil => rfl
  | cons p rest ih =>
    simp only [is_episode_processed_for_user, List.any_cons, List.map_cons] at ih ⊢
    rw [ih]

theorem mark_mono (db : DB) (now : Int) (eid u a b : String) (ss : Bool)
    (h : is_episode_processed_for_user db.processed a b = true) :
    is_episode_processed_for_user (mark_episode_processed db now eid u ss).processed a b = true := by
  unfold mark_episode_processed
  split
  · rw [is_processed_eq_map, setProcessedFirst_pair, ← is_processed_eq_map]
    exact h
  · unfold is_episode_processed_for_user at h ⊢
    rw [List.any_append]
    simp [h]

theorem mark_sets (db : DB) (now : Int) (eid u : String) (ss : Bool) :
    is_episode_processed_for_user (mark_episode_processed db now eid u ss).processed eid u = true := by
  unfold mark_episode_processed
  split
  · rename_i h
    rw [is_processed_eq_map, setProcessedFirst_pair, ← is_processed_eq_map]
    exact h
  · unfold is_episode_processed_for_user
    rw [List.any_append]
    simp

/-! ### Query and user-dict lemmas -/

theorem mem_episodeQuery (episodes : List Episode) (pid : Int) (since : Int) (e : Episode) :
    e ∈ episodeQuery episodes pid since ↔
      e ∈ episodes ∧ e.podcast_id = some pid ∧ since ≤ e.published ∧
        e.transcript.isSome = true := by
  simp [episodeQuery, List.mem_filter, and_assoc]

theorem lookupB_ensureKey (m : List (String × List Episode)) (v u : String) :
    lookupB (ensureKey m v) u = lookupB m u := by
  unfold ensureKey
  split
  · rfl
  · unfold lookupB
    rw [List.find?_append]
    cases hf : m.find? (fun kv => kv.1 == u) with
    | some kv => rfl
    | none =>
      simp only [Option.none_or]
      simp only [List.find?]
      by_cases hvu : (v == u) = true
      · simp [hvu]
      · have : (v == u) = false := by simpa using hvu
        simp [this]

theorem lookupB_appendAt_self (m : List (String × List Episode)) (u : String)
    (es : List Episode) (hk : m.any (fun kv => kv.1 == u) = true) :
    lookupB (appendAt m u es) u = lookupB m u ++ es := by
  induction m with
  | nil => simp at hk
  | cons kv rest ih =>
    by_cases hc : (kv.1 == u) = true
    · simp only [appendAt, List.map_cons, if_pos hc]
      unfold lookupB
      simp only [List.find?, hc]
    · have hc' : (kv.1 == u) = false := by simpa using hc
      simp only [List.any_cons, hc', Bool.false_or] at hk
      simp only [appendAt, List.map_cons, if_neg hc]
      unfold lookupB
      simp only [List.find?, hc']
      exact ih hk

theorem lookupB_appendAt_ne (m : List (String × List Episode)) (v u : String)
    (es : List Episode) (hne : u ≠ v) :
    lookupB (appendAt m v es) u = lookupB m u := by
  induction m with
  | nil => rfl
  | cons kv rest ih =>
    by_cases hc : (kv.1 == v) = true
    · have hcu : (kv.1 == u) = false := by
        have : kv.1 = v := by simpa using hc
        simp [this, (Ne.symm hne)]
      simp only [appendAt, List.map_cons, if_pos hc]
      unfold lookupB
      simp only [List.find?, hcu]
      exact ih
    · simp only [appendAt, List.map_cons, if_neg hc]
      unfold lookupB
      simp only [List.find?]
      cases hcu : (kv.1 == u) with
      | true => rfl
      | false => exact ih

theorem any_key_ensureKey (m : List (String × List Episode)) (v : String) :
    (ensureKey m v).any (fun kv => kv.1 == v) = true := by
  unfold ensureKey
  split
  · assumption
  · rw [List.any_append]
    simp

theorem digestGather_mono (window : Int) (clock : Clock) (db : DB)
    (subs : List UserSubscription) (k : Nat) (m : List (String × List Episode))
    (u : String) (e : Episode) (he : e ∈ lookupB m u) :
    e ∈ lookupB (digestGather window clock db subs k m).1 u := by
  induction subs generalizing k m with
  | nil => exact he
  | cons sub rest ih =>
    simp only [digestGather]
    apply ih
    by_cases hu : u = sub.username
    · subst hu
      rw [lookupB_appendAt_self _ _ _ (any_key_ensureKey m sub.username), lookupB_ensureKey]
      exact List.mem_append_left _ he
    · rw [lookupB_appendAt_ne _ _ _ _ hu, lookupB_ensureKey]
      exact he

theorem digestGather_sound (window : Int) (clock : Clock) (db : DB)
    (subs : List UserSubscription) (k : Nat) (m : List (String × List Episode))
    (u : String) (e : Episode)
    (he : e ∈ lookupB (digestGather window clock db subs k m).1 u) :
    e ∈ lookupB m u ∨
      (e ∈ db.episodes ∧ e.transcript.isSome = true ∧
        is_episode_processed_for_user db.processed e.id u = false ∧
        (∃ sub ∈ subs, sub.username = u ∧ e.podcast_id = some sub.podcast_id) ∧
        ∃ j, clock j - window ≤ e.published) := by
  induction subs generalizing k m with
  | nil => exact Or.inl he
  | cons sub rest ih =>
    simp only [digestGather] at he
    rcases ih _ _ he with hin | hnew
    · by_cases hu : u = sub.username
      · subst hu
        rw [lookupB_appendAt_self _ _ _ (any_key_ensureKey m sub.username),
          lookupB_ensureKey] at hin
        rcases List.mem_append.mp hin with h | h
        · exact Or.inl h
        · right
          rw [List.mem_filter] at h
          obtain ⟨hq, hnp⟩ := h
          rw [mem_episodeQuery] at hq
          obtain ⟨he1, he2, he3, he4⟩ := hq
          refine ⟨he1, he4, ?_, ⟨sub, List.mem_cons_self _ _, rfl, he2⟩, ⟨k, he3⟩⟩
          simpa using hnp
      · rw [lookupB_appendAt_ne _ _ _ _ hu, lookupB_ensureKey] at hin
        exact Or.inl hin
    · right
      obtain ⟨h1, h2, h3, ⟨sub', hs', hu', hp'⟩, hj⟩ := hnew
      exact ⟨h1, h2, h3, ⟨sub', List.mem_cons_of_mem _ hs', hu', hp'⟩, hj⟩

theorem digestGather_complete (window T : Int) (db : DB) (subs : List UserSubscription)
    (k : Nat) (m : List (String × List Episode)) (u : String) (e : Episode)
    (sub : UserSubscription) (hs : sub ∈ subs) (hu : sub.username = u)
    (hp : e.podcast_id = some sub.podcast_id) (he : e ∈ db.episodes)
    (hw : T - window ≤ e.published) (ht : e.transcript.isSome = true)
    (hnp : is_episode_processed_for_user db.processed e.id u = false) :
    e ∈ lookupB (digestGather window (fun _ => T) db subs k m).1 u := by
  induction subs generalizing k m with
  | nil => simp at hs
  | cons sub0 rest ih =>
    simp only [digestGather]
    rcases List.mem_cons.mp hs with heq | hmem
    · subst heq
      apply digestGather_mono
      subst hu
      rw [lookupB_appendAt_self _ _ _ (any_key_ensureKey m sub.username), lookupB_ensureKey]
      apply List.mem_append_right
      rw [List.mem_filter]
      refine ⟨?_, by simp [hnp]⟩
      rw [mem_episodeQuery]
      exact ⟨he, hp, hw, ht⟩
    · apply ih
      exact hmem

/-! ### Immediate-path lemmas -/

theorem immediateForUsers_fields (clock : Clock) (oracle : String → String → Bool)
    (e : Episode) (us : List String) (st : RunSt) :
    (immediateForUsers clock oracle e us st).db.episodes = st.db.episodes ∧
    (immediateForUsers clock oracle e us st).db.podcasts = st.db.podcasts ∧
    (immediateForUsers clock oracle e us st).db.subscriptions = st.db.subscriptions ∧
    (immediateForUsers clock oracle e us st).db.jobs = st.db.jobs := by
  induction us generalizing st with
  | nil => exact ⟨rfl, rfl, rfl, rfl⟩
  | cons u rest ih =>
    simp only [immediateForUsers]
    split
    · exact ih st
    · split
      · obtain ⟨m1, m2, m3, m4⟩ := mark_fields st.db (clock st.k) e.id u true
        exact ⟨((ih _).1).trans m1, ((ih _).2.1).trans m2,
          ((ih _).2.2.1).trans m3, ((ih _).2.2.2).trans m4⟩
      · exact ih _

theorem immediateForUsers_processed_mono (clock : Clock) (oracle : String → String → Bool)
    (e : Episode) (us : List String) (st : RunSt) (a b : String)
    (h : is_episode_processed_for_user st.db.processed a b = true) :
    is_episode_processed_for_user
      (immediateForUsers clock oracle e us st).db.processed a b = true := by
  induction us generalizing st with
  | nil => exact h
  | cons u rest ih =>
    simp only [immediateForUsers]
    split
    · exact ih st h
    · split
      · exact ih ⟨mark_episode_processed st.db (clock st.k) e.id u true, st.k + 1,
          st.log ++ [⟨e, u, process_episode_for_user oracle e u⟩]⟩
          (mark_mono st.db (clock st.k) e.id u a b true h)
      · exact ih _ h

theorem immediateForUsers_log (clock : Clock) (oracle : String → String → Bool)
    (e : Episode) (us : List String) (st : RunSt) :
    ∃ suf, (immediateForUsers clock oracle e us st).log = st.log ++ suf ∧
      ∀ a ∈ suf, a.episode = e := by
  induction us generalizing st with
  | nil => exact ⟨[], (List.append_nil _).symm, by simp⟩
  | cons u rest ih =>
    simp only [immediateForUsers]
    split
    · exact ih st
    · split
      · obtain ⟨suf, hl, hs⟩ :=
          ih ⟨mark_episode_processed st.db (clock st.k) e.id u true, st.k + 1,
            st.log ++ [⟨e, u, process_episode_for_user oracle e u⟩]⟩
        refine ⟨⟨e, u, process_episode_for_user oracle e u⟩ :: suf, ?_, ?_⟩
        · rw [hl]
          simp
        · intro a ha
          rcases List.mem_cons.mp ha with rfl | ha
          · rfl
          · exact hs a ha
      · obtain ⟨suf, hl, hs⟩ :=
          ih ⟨st.db, st.k, st.log ++ [⟨e, u, process_episode_for_user oracle e u⟩]⟩
        refine ⟨⟨e, u, process_episode_for_user oracle e u⟩ :: suf, ?_, ?_⟩
        · rw [hl]
          simp
        · intro a ha
          rcases List.mem_cons.mp ha with rfl | ha
          · rfl
          · exact hs a ha

theorem immediateForUsers_excluded (clock : Clock) (oracle : String → String → Bool)
    (e : Episode) (us : List String) (st : RunSt) (eid u0 : String)
    (h : is_episode_processed_for_user st.db.processed eid u0 = true) :
    is_episode_processed_for_user
        (immediateForUsers clock oracle e us st).db.processed eid u0 = true ∧
    ∀ a ∈ (immediateForUsers clock oracle e us st).log,
      a ∈ st.log ∨ ¬(a.episode.id = eid ∧ a.username = u0) := by
  induction us generalizing st with
  | nil => exact ⟨h, fun a ha => Or.inl ha⟩
  | cons u rest ih =>
    simp only [immediateForUsers]
    split
    · exact ih st h
    · rename_i hguard
      have hkey : ∀ (a : Attempt), a.episode = e → a.username = u →
          ¬(a.episode.id = eid ∧ a.username = u0) := by
        rintro a hae hau ⟨h1, h2⟩
        apply hguard
        rw [hae] at h1
        rw [hau] at h2
        rw [h1, h2]
        exact h
      split
      · obtain ⟨h1, h2⟩ :=
          ih ⟨mark_episode_processed st.db (clock st.k) e.id u true, st.k + 1,
            st.log ++ [⟨e, u, process_episode_for_user oracle e u⟩]⟩
          (mark_mono st.db (clock st.k) e.id u eid u0 true h)
        refine ⟨h1, fun a ha => ?_⟩
        rcases h2 a ha with hin | hnot
        · rcases List.mem_append.mp hin with hl | hx
          · exact Or.inl hl
          · have := List.mem_singleton.mp hx
            subst this
            exact Or.inr (hkey _ rfl rfl)
        · exact Or.inr hnot
      · obtain ⟨h1, h2⟩ :=
          ih ⟨st.db, st.k, st.log ++ [⟨e, u, process_episode_for_user oracle e u⟩]⟩ h
        refine ⟨h1, fun a ha => ?_⟩
        rcases h2 a ha with hin | hnot
        · rcases List.mem_append.mp hin with hl | hx
          · exact Or.inl hl
          · have := List.mem_singleton.mp hx
            subst this
            exact Or.inr (hkey _ rfl rfl)
        · exact Or.inr hnot

theorem immediateForEpisodes_fields (clock : Clock) (oracle : String → String → Bool)
    (usernames : List String) (es : List Episode) (st : RunSt) :
    (immediateForEpisodes clock oracle usernames es st).db.episodes = st.db.episodes ∧
    (immediateForEpisodes clock oracle usernames es st).db.podcasts = st.db.podcasts ∧
    (immediateForEpisodes clock oracle usernames es st).db.subscriptions = st.db.subscriptions ∧
    (immediateForEpisodes clock oracle usernames es st).db.jobs = st.db.jobs := by
  induction es generalizing st with
  | nil => exact ⟨rfl, rfl, rfl, rfl⟩
  | cons e rest ih =>
    simp only [immediateForEpisodes]
    obtain ⟨h1, h2, h3, h4⟩ := ih (immediateForUsers clock oracle e usernames st)
    obtain ⟨m1, m2, m3, m4⟩ := immediateForUsers_fields clock oracle e usernames st
    exact ⟨h1.trans m1, h2.trans m2, h3.trans m3, h4.trans m4⟩

theorem immediateForEpisodes_processed_mono (clock : Clock) (oracle : String → String → Bool)
    (usernames : List String) (es : List Episode) (st : RunSt) (a b : String)
    (h : is_episode_processed_for_user st.db.processed a b = true) :
    is_episode_processed_for_user
      (immediateForEpisodes clock oracle usernames es st).db.processed a b = true := by
  induction es generalizing st with
  | nil => exact h
  | cons e rest ih =>
    simp only [immediateForEpisodes]
    exact ih _ (immediateForUsers_processed_mono clock oracle e usernames st a b h)

theorem immediateForEpisodes_log (clock : Clock) (oracle : String → String → Bool)
    (usernames : List String) (es : List Episode) (st : RunSt) :
    ∃ suf, (immediateForEpisodes clock oracle usernames es st).log = st.log ++ suf ∧
      ∀ a ∈ suf, a.episode ∈ es := by
  induction es generalizing st with
  | nil => exact ⟨[], (List.append_nil _).symm, by simp⟩
  | cons e rest ih =>
    simp only [immediateForEpisodes]
    obtain ⟨suf1, hl1, hs1⟩ := immediateForUsers_log clock oracle e usernames st
    obtain ⟨suf2, hl2, hs2⟩ := ih (immediateForUsers clock oracle e usernames st)
    refine ⟨suf1 ++ suf2, ?_, ?_⟩
    · rw [hl2, hl1, List.append_assoc]
    · intro a ha
      rcases List.mem_append.mp ha with h1 | h2
      · rw [hs1 a h1]
        exact List.mem_cons_self _ _
      · exact List.mem_cons_of_mem _ (hs2 a h2)

theorem immediateForEpisodes_excluded (clock : Clock) (oracle : String → String → Bool)
    (usernames : List String) (es : List Episode) (st : RunSt) (eid u0 : String)
    (h : is_episode_processed_for_user st.db.processed eid u0 = true) :
    is_episode_processed_for_user
        (immediateForEpisodes clock oracle usernames es st).db.processed eid u0 = true ∧
    ∀ a ∈ (immediateForEpisodes clock oracle usernames es st).log,
      a ∈ st.log ∨ ¬(a.episode.id = eid ∧ a.username = u0) := by
  induction es generalizing st with
  | nil => exact ⟨h, fun a ha => Or.inl ha⟩
  | cons e rest ih =>
    simp only [immediateForEpisodes]
    obtain ⟨hu1, hu2⟩ := immediateForUsers_excluded clock oracle e usernames st eid u0 h
    obtain ⟨h1, h2⟩ := ih (immediateForUsers clock oracle e usernames st) hu1
    refine ⟨h1, fun a ha => ?_⟩
    rcases h2 a ha with hin | hnot
    · exact hu2 a hin
    · exact Or.inr hnot

theorem immediateForPodcasts_fields (clock : Clock) (oracle : String → String → Bool)
    (groups : List (Int × List String)) (st : RunSt) :
    (immediateForPodcasts clock oracle groups st).db.episodes = st.db.episodes ∧
    (immediateForPodcasts clock oracle groups st).db.podcasts = st.db.podcasts ∧
    (immediateForPodcasts clock oracle groups st).db.subscriptions = st.db.subscriptions ∧
    (immediateForPodcasts clock oracle groups st).db.jobs = st.db.jobs := by
  induction groups generalizing st with
  | nil => exact ⟨rfl, rfl, rfl, rfl⟩
  | cons g rest ih =>
    obtain ⟨pid, usernames⟩ := g
    simp only [immediateForPodcasts]
    split
    · exact ih st
    · obtain ⟨h1, h2, h3, h4⟩ := ih (immediateForEpisodes clock oracle usernames
        (episodeQuery st.db.episodes pid (clock st.k - 2 * 86400)) ⟨st.db, st.k + 1, st.log⟩)
      obtain ⟨m1, m2, m3, m4⟩ := immediateForEpisodes_fields clock oracle usernames
        (episodeQuery st.db.episodes pid (clock st.k - 2 * 86400)) ⟨st.db, st.k + 1, st.log⟩
      exact ⟨h1.trans m1, h2.trans m2, h3.trans m3, h4.trans m4⟩

theorem immediateForPodcasts_processed_mono (clock : Clock) (oracle : String → String → Bool)
    (groups : List (Int × List String)) (st : RunSt) (a b : String)
    (h : is_episode_processed_for_user st.db.processed a b = true) :
    is_episode_processed_for_user
      (immediateForPodcasts clock oracle groups st).db.processed a b = true := by
  induction groups generalizing st with
  | nil => exact h
  | cons g rest ih =>
    obtain ⟨pid, usernames⟩ := g
    simp only [immediateForPodcasts]
    split
    · exact ih st h
    · exact ih _ (immediateForEpisodes_processed_mono clock oracle usernames _ _ a b h)

theorem immediateForPodcasts_log (clock : Clock) (oracle : String → String → Bool)
    (groups : List (Int × List String)) (st : RunSt) :
    ∃ suf, (immediateForPodcasts clock oracle groups st).log = st.log ++ suf ∧
      ∀ a ∈ suf, a.episode ∈ st.db.episodes ∧ a.episode.transcript.isSome = true ∧
        ∃ j, clock j - 2 * 86400 ≤ a.episode.published := by
  induction groups generalizing st with
  | nil => exact ⟨[], (List.append_nil _).symm, by simp⟩
  | cons g rest ih =>
    obtain ⟨pid, usernames⟩ := g
    simp only [immediateForPodcasts]
    split
    · exact ih st
    · obtain ⟨suf1, hl1, hs1⟩ := immediateForEpisodes_log clock oracle usernames
        (episodeQuery st.db.episodes pid (clock st.k - 2 * 86400)) ⟨st.db, st.k + 1, st.log⟩
      obtain ⟨suf2, hl2, hs2⟩ := ih (immediateForEpisodes clock oracle usernames
        (episodeQuery st.db.episodes pid (clock st.k - 2 * 86400)) ⟨st.db, st.k + 1, st.log⟩)
      obtain ⟨hfe, _, _, _⟩ := immediateForEpisodes_fields clock oracle usernames
        (episodeQuery st.db.episodes pid (clock st.k - 2 * 86400)) ⟨st.db, st.k + 1, st.log⟩
      refine ⟨suf1 ++ suf2, ?_, ?_⟩
      · rw [hl2, hl1, List.append_assoc]
      · intro a ha
        rcases List.mem_append.mp ha with h1 | h2
        · have hq := hs1 a h1
          rw [mem_episodeQuery] at hq
          exact ⟨hq.1, hq.2.2.2, ⟨st.k, hq.2.2.1⟩⟩
        · have := hs2 a h2
          rw [hfe] at this
          exact this

theorem immediateForPodcasts_excluded (clock : Clock) (oracle : String → String → Bool)
    (groups : List (Int × List String)) (st : RunSt) (eid u0 : String)
    (h : is_episode_processed_for_user st.db.processed eid u0 = true) :
    is_episode_processed_for_user
        (immediateForPodcasts clock oracle groups st).db.processed eid u0 = true ∧
    ∀ a ∈ (immediateForPodcasts clock oracle groups st).log,
      a ∈ st.log ∨ ¬(a.episode.id = eid ∧ a.username = u0) := by
  induction groups generalizing st with
  | nil => exact ⟨h, fun a ha => Or.inl ha⟩
  | cons g rest ih =>
    obtain ⟨pid, usernames⟩ := g
    simp only [immediateForPodcasts]
    split
    · exact ih st h
    · obtain ⟨he1, he2⟩ := immediateForEpisodes_excluded clock oracle usernames
        (episodeQuery st.db.episodes pid (clock st.k - 2 * 86400))
        ⟨st.db, st.k + 1, st.log⟩ eid u0 h
      obtain ⟨h1, h2⟩ := ih _ he1
      refine ⟨h1, fun a ha => ?_⟩
      rcases h2 a ha with hin | hnot
      · exact he2 a hin
      · exact Or.inr hnot

/-- Claim C1: once a ProcessedEpisode record exists for an (episode, user) pair,
no scheduling run of any cadence attempts delivery of that episode to that user
or places it in that user's digest batch: eligibility always conjoins the
absence of the idempotency record. -/
theorem claim_C1 (clock : Clock) (oracle : String → String → Bool)
    (sendOkD sendOkW : String → Bool) (db : DB) (eid u0 : String)
    (h : is_episode_processed_for_user db.processed eid u0 = true) :
    (∀ a ∈ (process_immediate_notifications_logic clock oracle db).2,
        ¬(a.episode.id = eid ∧ a.username = u0)) ∧
    (∀ e ∈ lookupB (process_daily_digest_logic clock sendOkD db).batches u0, e.id ≠ eid) ∧
    (∀ e ∈ lookupB (process_weekly_digest_logic clock sendOkW db).batches u0, e.id ≠ eid) := by
  refine ⟨?_, ?_, ?_⟩
  · intro a ha
    simp only [process_immediate_notifications_logic] at ha
    rcases (immediateForPodcasts_excluded clock oracle _ ⟨db, 0, []⟩ eid u0 h).2 a ha with
      hin | hnot
    · simp at hin
    · exact hnot
  · intro e he heq
    simp only [process_daily_digest_logic, process_digest_logic] at he
    rcases digestGather_sound _ _ _ _ _ _ _ _ he with h0 | ⟨_, _, hnp, _, _⟩
    · simp [lookupB] at h0
    · rw [heq] at hnp
      simp [h] at hnp
  · intro e he heq
    simp only [process_weekly_digest_logic, process_digest_logic] at he
    rcases digestGather_sound _ _ _ _ _ _ _ _ he with h0 | ⟨_, _, hnp, _, _⟩
    · simp [lookupB] at h0
    · rw [heq] at hnp
      simp [h] at hnp

/-- Podcast used by the concrete scheduler scenarios. -/
def exPodcast : Podcast :=
  { id := 1, title := "P", rss_feed := "http://feed", username := none }

/-- Transcribed episode eA of podcast 1. -/
def exEpA : Episode :=
  { id := "eA", title := "A", published := 999000, summary := none, link := "la",
    audio_url := some "http://a.mp3", transcript_url := none, transcript := some "tA",
    podcast_id := some 1 }

/-- Transcribed episode eB of podcast 1. -/
def exEpB : Episode :=
  { id := "eB", title := "B", published := 998000, summary := none, link := "lb",
    audio_url := some "http://b.mp3", transcript_url := none, transcript := some "tB",
    podcast_id := some 1 }

/-- Store for the claim C1 witness: alice and bob subscribed immediately to
podcast 1, and episode eA already processed for alice. -/
def c1db : DB :=
  { podcasts := [exPodcast],
    episodes := [exEpA, exEpB],
    subscriptions :=
      [{ username := "alice", podcast_id := 1, subscribed_at := 0, is_active := true,
         notification_preferences := "immediate", updated_at := 0 },
       { username := "bob", podcast_id := 1, subscribed_at := 0, is_active := true,
         notification_preferences := "immediate", updated_at := 0 }],
    processed := [{ episode_id := "eA", username := "alice", processed_at := 500,
                    summary_sent := true }],
    jobs := [] }

/-- Witness for claim C1: in the concrete run, the attempt delivering eA to bob
is in the log and the theorem shows it is not the (eA, alice) pair. -/
theorem claim_C1_witness :
    ¬((Attempt.mk exEpA "bob" true).episode.id = "eA" ∧
      (Attempt.mk exEpA "bob" true).username = "alice") :=
  (claim_C1 (fun _ => 1000000) (fun _ _ => true) (fun _ => true) (fun _ => true)
    c1db "eA" "alice" (by decide)).1 (Attempt.mk exEpA "bob" true) (by decide)

/-- Claim C2: an episode whose transcript is null is never the subject of an
immediate delivery attempt and never appears in any daily or weekly digest
batch, for any user and any clock. -/
theorem claim_C2 (clock : Clock) (oracle : String → String → Bool)
    (sendOkD sendOkW : String → Bool) (db : DB) (e : Episode)
    (ht : e.transcript = none) :
    (∀ a ∈ (process_immediate_notifications_logic clock oracle db).2, a.episode ≠ e) ∧
    (∀ u, e ∉ lookupB (process_daily_digest_logic clock sendOkD db).batches u) ∧
    (∀ u, e ∉ lookupB (process_weekly_digest_logic clock sendOkW db).batches u) := by
  refine ⟨?_, ?_, ?_⟩
  · intro a ha heq
    simp only [process_immediate_notifications_logic] at ha
    obtain ⟨suf, hl, hs⟩ := immediateForPodcasts_log clock oracle
      (groupByPodcast (db.subscriptions.filter (fun s =>
        s.is_active && s.notification_preferences == "immediate")) []) ⟨db, 0, []⟩
    rw [hl, List.nil_append] at ha
    obtain ⟨_, hsome, _⟩ := hs a ha
    rw [heq, ht] at hsome
    simp at hsome
  · intro u he
    simp only [process_daily_digest_logic, process_digest_logic] at he
    rcases digestGather_sound _ _ _ _ _ _ _ _ he with h0 | ⟨_, hsome, _⟩
    · simp [lookupB] at h0
    · rw [ht] at hsome
      simp at hsome
  · intro u he
    simp only [process_weekly_digest_logic, process_digest_logic] at he
    rcases digestGather_sound _ _ _ _ _ _ _ _ he with h0 | ⟨_, hsome, _⟩
    · simp [lookupB] at h0
    · rw [ht] at hsome
      simp at hsome

/-- Untranscribed episode of podcast 1 used by the claim C2 witness. -/
def exEpNone : Episode :=
  { id := "eN", title := "N", published := 999500, summary := none, link := "ln",
    audio_url := some "http://n.mp3", transcript_url := none, transcript := none,
    podcast_id := some 1 }

/-- Store for the claim C2 witness: alice has a daily subscription and the
store holds an untranscribed fresh episode. -/
def c2db : DB :=
  { podcasts := [exPodcast],
    episodes := [exEpNone, exEpA],
    subscriptions :=
      [{ username := "alice", podcast_id := 1, subscribed_at := 0, is_active := true,
         notification_preferences := "daily", updated_at := 0 }],
    processed := [], jobs := [] }

/-- Witness for claim C2: the untranscribed episode is absent from alice's
daily digest batch in the concrete run. -/
theorem claim_C2_witness :
    exEpNone ∉ lookupB (process_daily_digest_logic (fun _ => 1000000) (fun _ => true)
      c2db).batches "alice" :=
  (claim_C2 (fun _ => 1000000) (fun _ _ => true) (fun _ => true) (fun _ => true)
    c2db exEpNone rfl).2.1 "alice"

/-- Full characterization of a digest batch under a constant clock: an episode
is in a user's batch exactly when some active subscription of that user with
the right preference covers its podcast, it lies in the inclusive window
`published ≥ T - window`, has a transcript, and is not yet processed. -/
theorem digest_batch_mem (prefs : String) (window T : Int) (sendOk : String → Bool)
    (db : DB) (u : String) (e : Episode) :
    e ∈ lookupB (process_digest_logic prefs window (fun _ => T) sendOk db).batches u ↔
      ∃ sub ∈ db.subscriptions, sub.is_active = true ∧
        sub.notification_preferences = prefs ∧ sub.username = u ∧
        e ∈ db.episodes ∧ e.podcast_id = some sub.podcast_id ∧
        T - window ≤ e.published ∧ e.transcript.isSome = true ∧
        is_episode_processed_for_user db.processed e.id u = false := by
  constructor
  · intro he
    simp only [process_digest_logic] at he
    rcases digestGather_sound _ _ _ _ _ _ _ _ he with h0 | hr
    · simp [lookupB] at h0
    · obtain ⟨he1, he2, he3, ⟨sub, hsub, huser, hpid⟩, j, hw⟩ := hr
      rw [List.mem_filter] at hsub
      obtain ⟨hmem, hcond⟩ := hsub
      simp only [Bool.and_eq_true, beq_iff_eq] at hcond
      exact ⟨sub, hmem, hcond.1, hcond.2, huser, he1, hpid, hw, he2, he3⟩
  · rintro ⟨sub, hmem, hact, hpref, huser, he1, hpid, hw, hsome, hnp⟩
    simp only [process_digest_logic]
    exact digestGather_complete window T db _ 0 [] u e sub
      (List.mem_filter.mpr ⟨hmem, by simp [hact, hpref]⟩) huser hpid he1 hw hsome hnp

/-- Episode published 30 hours before the example evaluation time T = 1000000. -/
def c3e1 : Episode :=
  { id := "e1", title := "E1", published := 1000000 - 30 * 3600, summary := none,
    link := "l1", audio_url := some "http://1.mp3", transcript_url := none,
    transcript := some "t1", podcast_id := some 1 }

/-- Episode published 20 hours before T. -/
def c3e2 : Episode :=
  { id := "e2", title := "E2", published := 1000000 - 20 * 3600, summary := none,
    link := "l2", audio_url := some "http://2.mp3", transcript_url := none,
    transcript := some "t2", podcast_id := some 1 }

/-- Episode published 2 hours before T. -/
def c3e3 : Episode :=
  { id := "e3", title := "E3", published := 1000000 - 2 * 3600, summary := none,
    link := "l3", audio_url := some "http://3.mp3", transcript_url := none,
    transcript := some "t3", podcast_id := some 1 }

/-- Store of the spec's daily example: one daily subscription, three
transcribed episodes at T-30h, T-20h, T-2h, nothing processed. -/
def c3db : DB :=
  { podcasts := [exPodcast],
    episodes := [c3e1, c3e2, c3e3],
    subscriptions :=
      [{ username := "alice", podcast_id := 1, subscribed_at := 0, is_active := true,
         notification_preferences := "daily", updated_at := 0 }],
    processed := [], jobs := [] }

/-- First daily run of the example at the constant clock T = 1000000 with a
successful send. -/
def c3run1 : DigestResult :=
  process_daily_digest_logic (fun _ => 1000000) (fun _ => true) c3db

/-- Re-run of the example at the same "now" on the store left by the first run. -/
def c3run2 : DigestResult :=
  process_daily_digest_logic (fun _ => 1000000) (fun _ => true) c3run1.db

/-- Episode published exactly two days before T = 1000000 (the immediate
window's inclusive lower boundary). -/
def c3eI : Episode :=
  { id := "eI", title := "EI", published := 1000000 - 2 * 86400, summary := none,
    link := "li", audio_url := some "http://i.mp3", transcript_url := none,
    transcript := some "tI", podcast_id := some 1 }

/-- Store for the immediate boundary check: an episode published exactly two
days before T = 1000000, with an immediate subscriber. -/
def c3idb : DB :=
  { podcasts := [exPodcast],
    episodes := [c3eI],
    subscriptions :=
      [{ username := "alice", podcast_id := 1, subscribed_at := 0, is_active := true,
         notification_preferences := "immediate", updated_at := 0 }],
    processed := [], jobs := [] }

/-- Claim C3: under a constant clock T the eligibility windows are inclusive at
the lower boundary and are `published ≥ T - 24h` (daily), `≥ T - 7d` (weekly),
`≥ T - 2d` (immediate); in the spec's daily example only the T-20h and T-2h
episodes are in the digest, both get marked processed, and a re-run at the same
"now" yields an empty digest with no send and an unchanged store. -/
theorem claim_C3 (T : Int) (oracle : String → String → Bool)
    (sendOkD sendOkW : String → Bool) (db : DB) :
    (∀ u e, e ∈ lookupB (process_daily_digest_logic (fun _ => T) sendOkD db).batches u ↔
      ∃ sub ∈ db.subscriptions, sub.is_active = true ∧
        sub.notification_preferences = "daily" ∧ sub.username = u ∧
        e ∈ db.episodes ∧ e.podcast_id = some sub.podcast_id ∧
        T - 86400 ≤ e.published ∧ e.transcript.isSome = true ∧
        is_episode_processed_for_user db.processed e.id u = false) ∧
    (∀ u e, e ∈ lookupB (process_weekly_digest_logic (fun _ => T) sendOkW db).batches u ↔
      ∃ sub ∈ db.subscriptions, sub.is_active = true ∧
        sub.notification_preferences = "weekly" ∧ sub.username = u ∧
        e ∈ db.episodes ∧ e.podcast_id = some sub.podcast_id ∧
        T - 7 * 86400 ≤ e.published ∧ e.transcript.isSome = true ∧
        is_episode_processed_for_user db.processed e.id u = false) ∧
    (∀ a ∈ (process_immediate_notifications_logic (fun _ => T) oracle db).2,
        a.episode ∈ db.episodes ∧ a.episode.transcript.isSome = true ∧
        T - 2 * 86400 ≤ a.episode.published) ∧
    (lookupB c3run1.batches "alice" = [c3e2, c3e3] ∧
      c3run1.total_sent = 1 ∧
      is_episode_processed_for_user c3run1.db.processed "e2" "alice" = true ∧
      is_episode_processed_for_user c3run1.db.processed "e3" "alice" = true ∧
      lookupB c3run2.batches "alice" = [] ∧
      c3run2.total_sent = 0 ∧
      c3run2.db = c3run1.db) ∧
    (process_immediate_notifications_logic (fun _ => (1000000 : Int)) (fun _ _ => true)
        c3idb).2.map (fun a => (a.episode.id, a.username, a.success)) =
      [("eI", "alice", true)] := by
  refine ⟨fun u e => digest_batch_mem "daily" 86400 T sendOkD db u e,
    fun u e => digest_batch_mem "weekly" (7 * 86400) T sendOkW db u e, ?_, by decide, by decide⟩
  intro a ha
  simp only [process_immediate_notifications_logic] at ha
  obtain ⟨suf, hl, hs⟩ := immediateForPodcasts_log (fun _ => T) oracle
    (groupByPodcast (db.subscriptions.filter (fun s =>
      s.is_active && s.notification_preferences == "immediate")) []) ⟨db, 0, []⟩
  rw [hl, List.nil_append] at ha
  obtain ⟨h1, h2, _, h3⟩ := hs a ha
  exact ⟨h1, h2, h3⟩

/-- Witness for claim C3: instantiating the daily characterization at the
example store shows the 20-hour-old episode is in alice's digest batch. -/
theorem claim_C3_witness :
    c3e2 ∈ lookupB (process_daily_digest_logic (fun _ => (1000000 : Int))
      (fun _ => true) c3db).batches "alice" :=
  ((claim_C3 1000000 (fun _ _ => true) (fun _ => true) (fun _ => true) c3db).1
    "alice" c3e2).mpr
    ⟨{ username := "alice", podcast_id := 1, subscribed_at := 0, is_active := true,
       notification_preferences := "daily", updated_at := 0 },
     by decide, rfl, rfl, rfl, by decide, rfl, by decide, rfl, rfl⟩

/-- Episode published exactly 24 hours before the first clock reading of the
claim C5 scenario. -/
def c5e : Episode :=
  { id := "e5", title := "E5", published := 1000000 - 86400, summary := none,
    link := "l5", audio_url := some "http://5.mp3", transcript_url := none,
    transcript := some "t5", podcast_id := some 1 }

/-- Store of the claim C5 scenario: alice and bob both have active daily
subscriptions to podcast 1. -/
def c5db : DB :=
  { podcasts := [exPodcast],
    episodes := [c5e],
    subscriptions :=
      [{ username := "alice", podcast_id := 1, subscribed_at := 0, is_active := true,
         notification_preferences := "daily", updated_at := 0 },
       { username := "bob", podcast_id := 1, subscribed_at := 0, is_active := true,
         notification_preferences := "daily", updated_at := 0 }],
    processed := [], jobs := [] }

/-- Clock of the claim C5 scenario: the run's first `datetime.now` read returns
1000000, every later read returns 1003600 (one hour later). -/
def c5clock : Clock := fun k => if k == 0 then 1000000 else 1003600

/-- Claim C5 fails on the code: `process_daily_digest_logic` recomputes
`since_date = datetime.now(timezone.utc) - timedelta(days=1)` separately for
every subscription, so within one run the boundary episode is eligible for
alice (cutoff from the first read) but not for bob (cutoff from the second
read), whereas under a single now read once at the start both users would
receive it. -/
theorem claim_C5 :
    lookupB (process_daily_digest_logic c5clock (fun _ => true) c5db).batches "alice"
        = [c5e] ∧
    lookupB (process_daily_digest_logic c5clock (fun _ => true) c5db).batches "bob"
        = [] ∧
    lookupB (process_daily_digest_logic (fun _ => c5clock 0) (fun _ => true)
        c5db).batches "alice" = [c5e] ∧
    lookupB (process_daily_digest_logic (fun _ => c5clock 0) (fun _ => true)
        c5db).batches "bob" = [c5e] := by
  refine ⟨by decide, by decide, by decide, by decide⟩

/-! ## rss_parser.py and fetch_episodes.py : feed polling and ingestion

A `FeedEntry` is one parsed feedparser entry; `title`/`summary` carry the
`html.unescape`d strings, `audio_url`/`transcript_url` are the extracted links,
and `fetched` is the result of the external `fetch_transcript(transcript_url)`
HTTP fetch (`none` when it fails).  `md5hex` is `hashlib.md5(...).hexdigest()`,
`formatTime` is Python's `str(datetime)` rendering, and `parseDate` is
`dateutil.parser.parse` returning `none` on a `ValueError`/`OverflowError`. -/

/-- One parsed feed entry. -/
structure FeedEntry where
  title : String
  published : String
  summary : String
  link : String
  audio_url : Option String
  transcript_url : Option String
  fetched : Option String
deriving Repr, DecidableEq

/-- rss_parser.py `extract_episode_id`: the md5 hex digest of
`f"{title}-{published}"`.  In `get_episodes_since` the `published` field holds
the parsed datetime, so its string rendering is hashed. -/
def extract_episode_id (md5hex : String → String) (title published : String) : String :=
  md5hex (title ++ "-" ++ published)

/-- rss_parser.py `parse_published_date`: defensive parse with fallback to the
current time. -/
def parse_published_date (parseDate : String → Option Int) (now : Int) (s : String) : Int :=
  (parseDate s).getD now

/-- The episode dict built for one feed entry in `get_episodes_since`
(transcript fetched only when a transcript URL shorter than 1000 characters is
present). -/
def rssEpisode (md5hex : String → String) (formatTime : Int → String)
    (entry : FeedEntry) (pub : Int) : Episode :=
  { id := extract_episode_id md5hex entry.title (formatTime pub),
    title := entry.title, published := pub, summary := some entry.summary,
    link := entry.link, audio_url := entry.audio_url,
    transcript_url := entry.transcript_url,
    transcript :=
      match entry.transcript_url with
      | some turl => if turl.length < 1000 then entry.fetched else none
      | none => none,
    podcast_id := none }

/-- rss_parser.py `get_episodes_since`: walk the feed entries, skip entries
published at or before `since` (a strict `published_dt <= since_date` skip),
append the rest, and stop once `maxEpisodes` entries are collected (Python:
`if max_episodes and len(episodes) >= max_episodes: break`). -/
def get_episodes_since (md5hex : String → String) (formatTime : Int → String)
    (parseDate : String → Option Int) (now : Int) (since : Option Int)
    (maxEpisodes : Option Nat) : List FeedEntry → List Episode → List Episode
  | [], acc => acc
  | entry :: rest, acc =>
    let pub := parse_published_date parseDate now entry.published
    if (match since with | some s => decide (pub ≤ s) | none => false) then
      get_episodes_since md5hex formatTime parseDate now since maxEpisodes rest acc
    else
      let acc' := acc ++ [rssEpisode md5hex formatTime entry pub]
      if (match maxEpisodes with
          | some m => decide (0 < m) && decide (m ≤ acc'.length)
          | none => false) then acc'
      else get_episodes_since md5hex formatTime parseDate now since maxEpisodes rest acc'

/-- `session.get(Episode, episode_data['id'])` as an existence check on the
primary key. -/
def episodeIdExists (episodes : List Episode) (id : String) : Bool :=
  episodes.any (fun e => e.id == id)

/-- The save loop shared by fetch_episodes.py `fetch_episodes` and
fetch_episodes_with_modal.py `fetch_podcast_episodes`: attach the podcast id,
skip episodes whose id already exists (no update), insert the rest. -/
def saveEpisodes (pid : Int) : List Episode → List Episode → List Episode
  | [], store => store
  | ep :: rest, store =>
    if episodeIdExists store ep.id then saveEpisodes pid rest store
    else saveEpisodes pid rest (store ++ [{ ep with podcast_id := some pid }])

/-- One poll of one podcast's feed: parse the feed and save the parsed episodes
into the episode store. -/
def pollFeed (md5hex : String → String) (formatTime : Int → String)
    (parseDate : String → Option Int) (now : Int) (since : Option Int)
    (maxEpisodes : Option Nat) (feed : List FeedEntry) (pid : Int)
    (store : List Episode) : List Episode :=
  saveEpisodes pid
    (get_episodes_since md5hex formatTime parseDate now since maxEpisodes feed []) store

theorem get_episodes_since_now_independent (md5hex : String → String)
    (formatTime : Int → String) (parseDate : String → Option Int)
    (now1 now2 : Int) (since : Option Int) (maxEpisodes : Option Nat)
    (feed : List FeedEntry) (acc : List Episode)
    (hall : ∀ entry ∈ feed, (parseDate entry.published).isSome = true) :
    get_episodes_since md5hex formatTime parseDate now1 since maxEpisodes feed acc =
      get_episodes_since md5hex formatTime parseDate now2 since maxEpisodes feed acc := by
  induction feed generalizing acc with
  | nil => rfl
  | cons entry rest ih =>
    have hsome := hall entry (List.mem_cons_self _ _)
    obtain ⟨d, hd⟩ := Option.isSome_iff_exists.mp hsome
    have hrest : ∀ e ∈ rest, (parseDate e.published).isSome = true :=
      fun e he => hall e (List.mem_cons_of_mem _ he)
    simp only [get_episodes_since, parse_published_date, hd, Option.getD_some]
    split
    · exact ih _ hrest
    · split
      · rfl
      · exact ih _ hrest

theorem episodeIdExists_saveEpisodes_mono (pid : Int) (eps store : List Episode)
    (x : String) (h : episodeIdExists store x = true) :
    episodeIdExists (saveEpisodes pid eps store) x = true := by
  induction eps generalizing store with
  | nil => exact h
  | cons ep rest ih =>
    simp only [saveEpisodes]
    split
    · exact ih store h
    · apply ih
      unfold episodeIdExists at h ⊢
      rw [List.any_append]
      simp [h]

theorem saveEpisodes_all_present (pid : Int) (eps store : List Episode) :
    ∀ ep ∈ eps, episodeIdExists (saveEpisodes pid eps store) ep.id = true := by
  induction eps generalizing store with
  | nil => simp
  | cons ep rest ih =>
    intro e he
    rcases List.mem_cons.mp he with rfl | hmem
    · simp only [saveEpisodes]
      split
      · rename_i hex
        exact episodeIdExists_saveEpisodes_mono pid rest store e.id hex
      · apply episodeIdExists_saveEpisodes_mono
        unfold episodeIdExists
        rw [List.any_append]
        simp
    · simp only [saveEpisodes]
      split
      · exact ih store e hmem
      · exact ih _ e hmem

theorem saveEpisodes_skip_all (pid : Int) (eps store : List Episode)
    (h : ∀ ep ∈ eps, episodeIdExists store ep.id = true) :
    saveEpisodes pid eps store = store := by
  induction eps with
  | nil => rfl
  | cons ep rest ih =>
    simp only [saveEpisodes]
    rw [if_pos (h ep (List.mem_cons_self _ _))]
    exact ih (fun e he => h e (List.mem_cons_of_mem _ he))

/-- A feed entry with the given published-date string, used by the concrete
polling scenarios. -/
def c6entry (pub : String) : FeedEntry :=
  { title := "T", published := pub, summary := "s", link := "l",
    audio_url := none, transcript_url := none, fetched := none }

/-- Concrete date parser for the claim C6 witness: only `2024-01-01` parses. -/
def c6parse : String → Option Int :=
  fun s => if s == "2024-01-01" then some 500 else none

/-- Claim C6 as stated is false: an entry whose published date does not parse
gets its identity hashed from the fallback `datetime.now`, so polling the same
unchanged feed at a later time mints a fresh identity and inserts a second row.
Here the digest and datetime-rendering stand-ins are the identity and
`toString`, the date never parses, and the second poll grows the store. -/
theorem claim_C6_counterexample :
    (pollFeed (fun s => s) (fun t => toString t) (fun _ => none) 0 (some (-1000)) none
      [c6entry "not-a-date"] 1 []).length = 1 ∧
    (pollFeed (fun s => s) (fun t => toString t) (fun _ => none) 100 (some (-1000)) none
      [c6entry "not-a-date"] 1
      (pollFeed (fun s => s) (fun t => toString t) (fun _ => none) 0 (some (-1000)) none
        [c6entry "not-a-date"] 1 [])).length = 2 := by
  refine ⟨by decide, by decide⟩

/-- Claim C6 amended: provided every entry's published date parses (so no
identity falls back to the current time), polling the same unchanged feed twice
yields the same episode records and identities for every entry, and the second
poll inserts no new rows and modifies none: the store is unchanged. -/
theorem claim_C6 (md5hex : String → String) (formatTime : Int → String)
    (parseDate : String → Option Int) (now1 now2 : Int) (since : Option Int)
    (maxEpisodes : Option Nat) (feed : List FeedEntry) (pid : Int)
    (store : List Episode)
    (hall : ∀ entry ∈ feed, (parseDate entry.published).isSome = true) :
    get_episodes_since md5hex formatTime parseDate now1 since maxEpisodes feed [] =
      get_episodes_since md5hex formatTime parseDate now2 since maxEpisodes feed [] ∧
    pollFeed md5hex formatTime parseDate now2 since maxEpisodes feed pid
        (pollFeed md5hex formatTime parseDate now1 since maxEpisodes feed pid store) =
      pollFeed md5hex formatTime parseDate now1 since maxEpisodes feed pid store := by
  have heq := get_episodes_since_now_independent md5hex formatTime parseDate now1 now2
    since maxEpisodes feed [] hall
  refine ⟨heq, ?_⟩
  unfold pollFeed
  rw [← heq]
  exact saveEpisodes_skip_all pid _ _ (saveEpisodes_all_present pid _ store)

/-- Witness for claim C6 at a concrete feed whose dates all parse. -/
theorem claim_C6_witness :
    (∀ entry ∈ [c6entry "2024-01-01"], (c6parse entry.published).isSome = true) ∧
    pollFeed (fun s => s) (fun t => toString t) c6parse 100 (some 0) none
        [c6entry "2024-01-01"] 1
        (pollFeed (fun s => s) (fun t => toString t) c6parse 0 (some 0) none
          [c6entry "2024-01-01"] 1 []) =
      pollFeed (fun s => s) (fun t => toString t) c6parse 0 (some 0) none
        [c6entry "2024-01-01"] 1 [] :=
  ⟨by decide,
   (claim_C6 (fun s => s) (fun t => toString t) c6parse 0 100 (some 0) none
      [c6entry "2024-01-01"] 1 [] (by decide)).2⟩

/-! ## fetch_transcripts.py : transcription job submission

External outcomes of one submission cycle are a `SubmitOracle`: `download aurl`
is `download_audio`'s result (the file extension on success, already derived
from the URL path with `mp3` as default), `uploadOk`/`submitOk` are the S3
upload and AWS job-start successes per episode id, `uuidOf` supplies
`uuid.uuid4()` per episode id. -/

/-- `audio_uri.split('.')[-1]`: the segment after the last dot, the whole
string when no dot occurs. -/
def lastDotSegment (s : String) : String :=
  String.mk ((s.data.reverse.takeWhile (fun c => c != '.')).reverse)

/-- Python `str.lower()`: lowercase each character. -/
def py_lower (s : String) : String :=
  String.mk (s.data.map Char.toLower)

/-- The fixed allow-list of media formats accepted by `transcribe_episode`. -/
def supported_formats : List String := ["mp3", "mp4", "wav", "flac", "ogg", "amr", "webm"]

/-- fetch_transcripts.py `transcribe_episode`: generate the job name, reject
audio URIs whose extension is outside the allow-list, then submit the external
job (a failed submission raises, is caught, and yields None). -/
def transcribe_episode (submitOk : Bool) (uuid : String) (audio_uri : String) :
    Option String :=
  let job_name := "transcription-" ++ uuid
  let media_format := py_lower (lastDotSegment audio_uri)
  if supported_formats.contains media_format then
    (if submitOk then some job_name else none)
  else none

/-- External outcomes of a submission cycle. -/
structure SubmitOracle where
  download : String → Option String
  uploadOk : String → Bool
  uuidOf : String → String
  submitOk : String → Bool

/-- The per-episode body of fetch_transcripts.py `main`: skip episodes without
an audio URL or whose download fails, upload under `episodes/{id}.{ext}`, and
submit the transcription job, yielding the STARTED job row to insert (none on
any skip; the temporary file cleanup has no store effect). -/
def jobFor (o : SubmitOracle) (bucketE bucketT : String) (e : Episode) :
    Option TranscriptionJob :=
  match e.audio_url with
  | none => none
  | some aurl =>
    match o.download aurl with
    | none => none
    | some ext =>
      if o.uploadOk e.id then
        let s3_uri := "s3://" ++ bucketE ++ "/episodes/" ++ e.id ++ "." ++ ext
        match transcribe_episode (o.submitOk e.id) (o.uuidOf e.id) s3_uri with
        | some jn =>
          some { job_name := jn, audio_url := aurl, s3_uri := s3_uri,
                 transcript_uri :=
                   some ("s3://" ++ bucketT ++ "/transcripts/" ++ e.id ++ ".json"),
                 status := "STARTED" }
        | none => none
      else none

/-- fetch_transcripts.py `main` (also fetch_episodes_with_modal.py
`fetch_transcripts`): iterate the episodes with a null transcript, committing
one STARTED job row per successful submission; every failure skips just that
episode and the loop continues. -/
def fetch_transcripts_run (o : SubmitOracle) (bucketE bucketT : String) (db : DB) : DB :=
  { db with jobs := db.jobs ++
      ((db.episodes.filter (fun e => e.transcript.isNone)).filterMap
        (jobFor o bucketE bucketT)) }

/-! ## process_transcripts.py : transcription job completion -/

/-- process_transcripts.py `extract_transcript_text` on the parsed transcripts
array (`results.transcripts[*].transcript` of the AWS output). -/
def extract_transcript_text (items : List String) : String :=
  match items with
  | [] => ""
  | _ => String.intercalate " " items

/-- ORM update of the processed job: set the first row with the given primary
key to COMPLETED. -/
def completeFirstJob (l : List TranscriptionJob) (name : String) :
    List TranscriptionJob :=
  match l with
  | [] => []
  | j :: rest =>
    if j.job_name == name then { j with status := "COMPLETED" } :: rest
    else j :: completeFirstJob rest name

/-- ORM update of the matched episode: attach the transcript text and URL to
the first episode row whose audio URL matches. -/
def attachTranscriptFirst (l : List Episode) (aurl text turi : String) : List Episode :=
  match l with
  | [] => []
  | e :: rest =>
    if e.audio_url == some aurl then
      { e with transcript := some text, transcript_url := some turi } :: rest
    else e :: attachTranscriptFirst rest aurl text turi

/-- The body of process_transcripts.py `process_completed_jobs` for one job:
skip jobs without a transcript URI, whose transcript object cannot be fetched
(`fetchData` is the S3 download plus JSON parse yielding the transcripts
array), whose extracted text is empty, or with no matching episode; otherwise
attach the transcript to the episode by audio URL and flip the job to
COMPLETED in the same commit. -/
def completeJob (fetchData : TranscriptionJob → Option (List String)) (db : DB)
    (job : TranscriptionJob) : DB :=
  match job.transcript_uri with
  | none => db
  | some turi =>
    match fetchData job with
    | none => db
    | some items =>
      let text := extract_transcript_text items
      if text == "" then db
      else if db.episodes.any (fun e => e.audio_url == some job.audio_url) then
        { db with
          episodes := attachTranscriptFirst db.episodes job.audio_url text turi,
          jobs := completeFirstJob db.jobs job.job_name }
      else db

/-- The completion-check selection: all jobs whose status is not COMPLETED. -/
def jobs_to_check (db : DB) : List TranscriptionJob :=
  db.jobs.filter (fun j => j.status != "COMPLETED")

/-- process_transcripts.py `process_completed_jobs` (also
fetch_episodes_with_modal.py `process_completed_transcripts`): run the per-job
completion body over the selected jobs. -/
def process_completed_jobs (fetchData : TranscriptionJob → Option (List String))
    (db : DB) : DB :=
  (jobs_to_check db).foldl (completeJob fetchData) db

/-! ## The system's operations -/

/-- One scheduled or user-driven operation of the system together with its
external inputs. -/
inductive Op where
  | fetchEpisodes (md5hex : String → String) (formatTime : Int → String)
      (parseDate : String → Option Int) (now : Int) (since : Option Int)
      (maxEpisodes : Option Nat) (feed : List FeedEntry) (pid : Int)
  | fetchTranscripts (o : SubmitOracle) (bucketE bucketT : String)
  | processTranscripts (fetchData : TranscriptionJob → Option (List String))
  | subscribeOp (now : Int) (username : String) (pid : Int) (prefs : String)
  | unsubscribeOp (now : Int) (username : String) (pid : Int)
  | updatePrefsOp (now : Int) (username : String) (pid : Int) (prefs : String)
  | immediateOp (clock : Clock) (oracle : String → String → Bool)
  | dailyOp (clock : Clock) (sendOk : String → Bool)
  | weeklyOp (clock : Clock) (sendOk : String → Bool)

/-- Effect of one operation on the store. -/
def applyOp (op : Op) (db : DB) : DB :=
  match op with
  | .fetchEpisodes md5hex formatTime parseDate now since maxEpisodes feed pid =>
    { db with episodes :=
        pollFeed md5hex formatTime parseDate now since maxEpisodes feed pid db.episodes }
  | .fetchTranscripts o bE bT => fetch_transcripts_run o bE bT db
  | .processTranscripts fd => process_completed_jobs fd db
  | .subscribeOp now u pid prefs => (subscribe_user_to_podcast db now u pid prefs).1
  | .unsubscribeOp now u pid => (unsubscribe_user_from_podcast db now u pid).1
  | .updatePrefsOp now u pid prefs => (update_subscription_preferences db now u pid prefs).1
  | .immediateOp clock oracle => (process_immediate_notifications_logic clock oracle db).1
  | .dailyOp clock sendOk => (process_daily_digest_logic clock sendOk db).db
  | .weeklyOp clock sendOk => (process_weekly_digest_logic clock sendOk db).db

/-! ### Field-preservation lemmas for the operations -/

theorem subscribe_fields (db : DB) (now : Int) (u : String) (p : Int) (prefs : String) :
    (subscribe_user_to_podcast db now u p prefs).1.podcasts = db.podcasts ∧
    (subscribe_user_to_podcast db now u p prefs).1.episodes = db.episodes ∧
    (subscribe_user_to_podcast db now u p prefs).1.processed = db.processed ∧
    (subscribe_user_to_podcast db now u p prefs).1.jobs = db.jobs := by
  unfold subscribe_user_to_podcast
  cases db.subscriptions.find? (fun s => s.username == u && s.podcast_id == p) with
  | none => exact ⟨rfl, rfl, rfl, rfl⟩
  | some ex =>
    by_cases h : ex.is_active <;> simp [h]

theorem unsubscribe_fields (db : DB) (now : Int) (u : String) (p : Int) :
    (unsubscribe_user_from_podcast db now u p).1.podcasts = db.podcasts ∧
    (unsubscribe_user_from_podcast db now u p).1.episodes = db.episodes ∧
    (unsubscribe_user_from_podcast db now u p).1.processed = db.processed ∧
    (unsubscribe_user_from_podcast db now u p).1.jobs = db.jobs := by
  unfold unsubscribe_user_from_podcast
  cases db.subscriptions.find? (fun s => s.username == u && s.podcast_id == p) with
  | none => exact ⟨rfl, rfl, rfl, rfl⟩
  | some ex =>
    by_cases h : ex.is_active <;> simp [h]

theorem update_prefs_fields (db : DB) (now : Int) (u : String) (p : Int) (prefs : String) :
    (update_subscription_preferences db now u p prefs).1.podcasts = db.podcasts ∧
    (update_subscription_preferences db now u p prefs).1.episodes = db.episodes ∧
    (update_subscription_preferences db now u p prefs).1.processed = db.processed ∧
    (update_subscription_preferences db now u p prefs).1.jobs = db.jobs := by
  unfold update_subscription_preferences
  cases db.subscriptions.find? (fun s => s.username == u && s.podcast_id == p) with
  | none => exact ⟨rfl, rfl, rfl, rfl⟩
  | some ex => exact ⟨rfl, rfl, rfl, rfl⟩

theorem digestMarkAll_fields (clock : Clock) (u : String) (es : List Episode)
    (db : DB) (k : Nat) :
    (digestMarkAll clock u es db k).1.episodes = db.episodes ∧
    (digestMarkAll clock u es db k).1.podcasts = db.podcasts ∧
    (digestMarkAll clock u es db k).1.subscriptions = db.subscriptions ∧
    (digestMarkAll clock u es db k).1.jobs = db.jobs := by
  induction es generalizing db k with
  | nil => exact ⟨rfl, rfl, rfl, rfl⟩
  | cons e rest ih =>
    simp only [digestMarkAll]
    obtain ⟨h1, h2, h3, h4⟩ := ih (mark_episode_processed db (clock k) e.id u true) (k + 1)
    obtain ⟨m1, m2, m3, m4⟩ := mark_fields db (clock k) e.id u true
    exact ⟨h1.trans m1, h2.trans m2, h3.trans m3, h4.trans m4⟩

theorem digestSend_fields (clock : Clock) (sendOk : String → Bool)
    (m : List (String × List Episode)) (db : DB) (k total : Nat) :
    (digestSend clock sendOk m db k total).1.episodes = db.episodes ∧
    (digestSend clock sendOk m db k total).1.podcasts = db.podcasts ∧
    (digestSend clock sendOk m db k total).1.subscriptions = db.subscriptions ∧
    (digestSend clock sendOk m db k total).1.jobs = db.jobs := by
  induction m generalizing db k total with
  | nil => exact ⟨rfl, rfl, rfl, rfl⟩
  | cons kv rest ih =>
    obtain ⟨u, eps⟩ := kv
    simp only [digestSend]
    split
    · exact ih db k total
    · split
      · obtain ⟨h1, h2, h3, h4⟩ := ih (digestMarkAll clock u eps db k).1
          (digestMarkAll clock u eps db k).2 (total + 1)
        obtain ⟨m1, m2, m3, m4⟩ := digestMarkAll_fields clock u eps db k
        exact ⟨h1.trans m1, h2.trans m2, h3.trans m3, h4.trans m4⟩
      · exact ih db k total

theorem process_digest_fields (prefs : String) (window : Int) (clock : Clock)
    (sendOk : String → Bool) (db : DB) :
    (process_digest_logic prefs window clock sendOk db).db.episodes = db.episodes ∧
    (process_digest_logic prefs window clock sendOk db).db.podcasts = db.podcasts ∧
    (process_digest_logic prefs window clock sendOk db).db.subscriptions = db.subscriptions ∧
    (process_digest_logic prefs window clock sendOk db).db.jobs = db.jobs := by
  simp only [process_digest_logic]
  exact digestSend_fields clock sendOk _ db _ 0

/-! ### Completed jobs stay completed -/

theorem completed_mem_completeFirstJob (l : List TranscriptionJob) (name : String)
    (j : TranscriptionJob) (hc : j.status = "COMPLETED") (hj : j ∈ l) :
    j ∈ completeFirstJob l name := by
  induction l with
  | nil => simp at hj
  | cons h rest ih =>
    rcases List.mem_cons.mp hj with rfl | hmem
    · simp only [completeFirstJob]
      split
      · have heq : ({ j with status := "COMPLETED" } : TranscriptionJob) = j := by
          cases j
          simp_all
        rw [heq]
        exact List.mem_cons_self _ _
      · exact List.mem_cons_self _ _
    · simp only [completeFirstJob]
      split
      · exact List.mem_cons_of_mem _ hmem
      · exact List.mem_cons_of_mem _ (ih hmem)

theorem completed_mem_completeJob (fetchData : TranscriptionJob → Option (List String))
    (db : DB) (job j : TranscriptionJob)
    (hc : j.status = "COMPLETED") (hj : j ∈ db.jobs) :
    j ∈ (completeJob fetchData db job).jobs := by
  unfold completeJob
  split
  · exact hj
  · split
    · exact hj
    · dsimp only
      split
      · exact hj
      · split
        · exact completed_mem_completeFirstJob _ _ _ hc hj
        · exact hj

theorem completed_mem_foldl (fetchData : TranscriptionJob → Option (List String))
    (todo : List TranscriptionJob) (db : DB) (j : TranscriptionJob)
    (hc : j.status = "COMPLETED") (hj : j ∈ db.jobs) :
    j ∈ (todo.foldl (completeJob fetchData) db).jobs := by
  induction todo generalizing db with
  | nil => exact hj
  | cons job rest ih =>
    exact ih _ (completed_mem_completeJob fetchData db job j hc hj)

/-- Claim C8: a COMPLETED TranscriptionJob is never selected by a
completion-check run (the selection is exactly the jobs whose status is not
COMPLETED), and no operation of the system removes it or moves it out of the
COMPLETED status: the identical row survives every operation. -/
theorem claim_C8 (op : Op) (db : DB) (j : TranscriptionJob)
    (hj : j ∈ db.jobs) (hc : j.status = "COMPLETED") :
    j ∉ jobs_to_check db ∧ j ∈ (applyOp op db).jobs := by
  constructor
  · intro hmem
    rw [jobs_to_check, List.mem_filter] at hmem
    simp [hc] at hmem
  · cases op with
    | fetchEpisodes md5hex formatTime parseDate now since maxEpisodes feed pid =>
      simpa [applyOp] using hj
    | fetchTranscripts o bE bT =>
      simp only [applyOp, fetch_transcripts_run]
      exact List.mem_append_left _ hj
    | processTranscripts fd =>
      simp only [applyOp, process_completed_jobs]
      exact completed_mem_foldl fd _ db j hc hj
    | subscribeOp now u pid prefs =>
      simp only [applyOp]
      rw [(subscribe_fields db now u pid prefs).2.2.2]
      exact hj
    | unsubscribeOp now u pid =>
      simp only [applyOp]
      rw [(unsubscribe_fields db now u pid).2.2.2]
      exact hj
    | updatePrefsOp now u pid prefs =>
      simp only [applyOp]
      rw [(update_prefs_fields db now u pid prefs).2.2.2]
      exact hj
    | immediateOp clock oracle =>
      simp only [applyOp, process_immediate_notifications_logic]
      rw [(immediateForPodcasts_fields clock oracle _ ⟨db, 0, []⟩).2.2.2]
      exact hj
    | dailyOp clock sendOk =>
      simp only [applyOp, process_daily_digest_logic]
      rw [(process_digest_fields "daily" 86400 clock sendOk db).2.2.2]
      exact hj
    | weeklyOp clock sendOk =>
      simp only [applyOp, process_weekly_digest_logic]
      rw [(process_digest_fields "weekly" (7 * 86400) clock sendOk db).2.2.2]
      exact hj

/-- A COMPLETED job row for the claim C8 witness. -/
def c8jobC : TranscriptionJob :=
  { job_name := "jc", audio_url := "http://a.mp3", s3_uri := "s3://e/a.mp3",
    transcript_uri := some "s3://t/a.json", status := "COMPLETED" }

/-- A STARTED job row for the claim C8 witness. -/
def c8jobS : TranscriptionJob :=
  { job_name := "js", audio_url := "http://b.mp3", s3_uri := "s3://e/b.mp3",
    transcript_uri := some "s3://t/b.json", status := "STARTED" }

/-- Store for the claim C8 witness. -/
def c8db : DB :=
  { podcasts := [], episodes := [], subscriptions := [], processed := [],
    jobs := [c8jobC, c8jobS] }

/-- Witness for claim C8 at a concrete store and a completion-check run. -/
theorem claim_C8_witness :
    c8jobC ∈ c8db.jobs ∧
    (c8jobC ∉ jobs_to_check c8db ∧
      c8jobC ∈ (applyOp (Op.processTranscripts (fun _ => some ["hello"])) c8db).jobs) :=
  ⟨by decide, claim_C8 (Op.processTranscripts (fun _ => some ["hello"])) c8db c8jobC
    (by decide) rfl⟩

/-! ### Unsupported media formats abort only their own job submission -/

theorem takeWhile_append_stop (p : Char → Bool) (l1 : List Char) (a : Char)
    (l2 : List Char) (h1 : ∀ c ∈ l1, p c = true) (ha : p a = false) :
    (l1 ++ a :: l2).takeWhile p = l1 := by
  induction l1 with
  | nil => simp [List.takeWhile_cons, ha]
  | cons c rest ih =>
    have hc := h1 c (List.mem_cons_self _ _)
    simp [List.takeWhile_cons, hc, ih (fun x hx => h1 x (List.mem_cons_of_mem _ hx))]

theorem lastDotSegment_append (x ext : String) (hdot : ('.' : Char) ∉ ext.data) :
    lastDotSegment (x ++ "." ++ ext) = ext := by
  have h1 : ∀ c ∈ ext.data.reverse, (c != '.') = true := by
    intro c hc
    have hmem : c ∈ ext.data := List.mem_reverse.mp hc
    have hne : c ≠ '.' := fun h => hdot (h ▸ hmem)
    simpa using hne
  unfold lastDotSegment
  have hdata : (x ++ "." ++ ext).data = (x.data ++ ['.']) ++ ext.data := by
    simp
  rw [hdata, List.reverse_append]
  have h2 : (x.data ++ ['.']).reverse = '.' :: x.data.reverse := by simp
  rw [h2, takeWhile_append_stop _ _ _ _ h1 (by simp), List.reverse_reverse]

/-- Episode with an unsupported audio extension (`.xyz`). -/
def c9badEp : Episode :=
  { id := "b", title := "Bad", published := 0, summary := none, link := "lb",
    audio_url := some "http://x/bad.xyz", transcript_url := none, transcript := none,
    podcast_id := some 1 }

/-- Episode with a supported audio extension (`.mp3`). -/
def c9goodEp : Episode :=
  { id := "g", title := "Good", published := 0, summary := none, link := "lg",
    audio_url := some "http://x/good.mp3", transcript_url := none, transcript := none,
    podcast_id := some 1 }

/-- Submission-cycle oracle for the claim C9 scenario: downloads and uploads
succeed, job submission succeeds, uuids are derived from the episode id. -/
def c9oracle : SubmitOracle :=
  { download := fun url => if url == "http://x/bad.xyz" then some "xyz" else some "mp3",
    uploadOk := fun _ => true,
    uuidOf := fun id => "u-" ++ id,
    submitOk := fun _ => true }

/-- Store for the claim C9 scenario: the unsupported episode comes first. -/
def c9db : DB :=
  { podcasts := [], episodes := [c9badEp, c9goodEp], subscriptions := [],
    processed := [], jobs := [] }

/-- The job row created for the supported episode of the claim C9 scenario. -/
def c9goodJob : TranscriptionJob :=
  { job_name := "transcription-u-g", audio_url := "http://x/good.mp3",
    s3_uri := "s3://eb/episodes/g.mp3",
    transcript_uri := some "s3://tb/transcripts/g.json", status := "STARTED" }

/-- Claim C9: an episode whose audio object key carries an extension outside
the allow-list yields no TranscriptionJob row (its submission is skipped), and
the batch continues: in the concrete store where the `.xyz` episode precedes a
`.mp3` episode, the run creates exactly the `.mp3` episode's job. -/
theorem claim_C9 (o : SubmitOracle) (bucketE bucketT : String) (e : Episode)
    (aurl ext : String) (ha : e.audio_url = some aurl) (hd : o.download aurl = some ext)
    (hdot : ('.' : Char) ∉ ext.data)
    (hunsup : supported_formats.contains (py_lower ext) = false) :
    jobFor o bucketE bucketT e = none ∧
    (fetch_transcripts_run c9oracle "eb" "tb" c9db).jobs = [c9goodJob] ∧
    (fetch_transcripts_run c9oracle "eb" "tb" c9db).episodes = c9db.episodes := by
  refine ⟨?_, by decide, by decide⟩
  unfold jobFor
  rw [ha]
  dsimp only
  rw [hd]
  dsimp only
  split
  · have hseg : lastDotSegment ("s3://" ++ bucketE ++ "/episodes/" ++ e.id ++ "." ++ ext)
        = ext :=
      lastDotSegment_append ("s3://" ++ bucketE ++ "/episodes/" ++ e.id) ext hdot
    have hmem : py_lower ext ∉ supported_formats := by
      simpa using hunsup
    simp [transcribe_episode, hseg, hmem]
  · rfl

/-- Witness for claim C9 at the `.xyz` episode. -/
theorem claim_C9_witness :
    c9badEp.audio_url = some "http://x/bad.xyz" ∧
    c9oracle.download "http://x/bad.xyz" = some "xyz" ∧
    supported_formats.contains (py_lower "xyz") = false ∧
    jobFor c9oracle "eb" "tb" c9badEp = none :=
  ⟨rfl, by decide, by decide,
   (claim_C9 c9oracle "eb" "tb" c9badEp "http://x/bad.xyz" "xyz" rfl (by decide)
     (by decide) (by decide)).1⟩

/-! ### Transcript provenance -/

/-- The immutable columns of a job row: everything except `status`. -/
def jobKey (j : TranscriptionJob) : String × String × String × Option String :=
  (j.job_name, j.audio_url, j.s3_uri, j.transcript_uri)

theorem completeFirstJob_keys (l : List TranscriptionJob) (name : String) :
    (completeFirstJob l name).map jobKey = l.map jobKey := by
  induction l with
  | nil => rfl
  | cons j rest ih =>
    simp only [completeFirstJob]
    split <;> simp [ih, jobKey]

theorem names_eq_of_keys_eq (l l0 : List TranscriptionJob)
    (h : l.map jobKey = l0.map jobKey) :
    l.map (fun j => j.job_name) = l0.map (fun j => j.job_name) := by
  have h1 : (l.map jobKey).map (fun k => k.1) = (l0.map jobKey).map (fun k => k.1) := by
    rw [h]
  simpa [List.map_map, Function.comp] using h1

theorem flip_mem_completeFirstJob (l : List TranscriptionJob) (name : String)
    (r : TranscriptionJob) (hr : r ∈ l) (hname : r.job_name = name)
    (hnodup : (l.map (fun j => j.job_name)).Nodup) :
    { r with status := "COMPLETED" } ∈ completeFirstJob l name := by
  induction l with
  | nil => simp at hr
  | cons h rest ih =>
    simp only [List.map_cons, List.nodup_cons] at hnodup
    obtain ⟨hnotin, htail⟩ := hnodup
    rcases List.mem_cons.mp hr with rfl | hmem
    · simp only [completeFirstJob, hname]
      rw [if_pos (by simp)]
      exact List.mem_cons_self _ _
    · have hne : (h.job_name == name) = false := by
        have : h.job_name ≠ name := by
          intro heq
          apply hnotin
          rw [heq, ← hname]
          exact List.mem_map_of_mem _ hmem
        simpa using this
      simp only [completeFirstJob, hne]
      rw [if_neg (by simp [hne])]
      exact List.mem_cons_of_mem _ (ih hmem htail)

theorem mem_attachTranscriptFirst (l : List Episode) (aurl text turi : String)
    (e' : Episode) (he : e' ∈ attachTranscriptFirst l aurl text turi) :
    e' ∈ l ∨ ∃ e0 ∈ l, e0.audio_url = some aurl ∧
      e' = { e0 with transcript := some text, transcript_url := some turi } := by
  induction l with
  | nil => simp [attachTranscriptFirst] at he
  | cons e0 rest ih =>
    simp only [attachTranscriptFirst] at he
    by_cases hc : (e0.audio_url == some aurl) = true
    · rw [if_pos hc] at he
      rcases List.mem_cons.mp he with rfl | hmem
      · exact Or.inr ⟨e0, List.mem_cons_self _ _, by simpa using hc, rfl⟩
      · exact Or.inl (List.mem_cons_of_mem _ hmem)
    · rw [if_neg hc] at he
      rcases List.mem_cons.mp he with rfl | hmem
      · exact Or.inl (List.mem_cons_self _ _)
      · rcases ih hmem with h | ⟨e1, he1, hcond, heq⟩
        · exact Or.inl (List.mem_cons_of_mem _ h)
        · exact Or.inr ⟨e1, List.mem_cons_of_mem _ he1, hcond, heq⟩

/-- Invariant carried through the completion fold: every transcribed episode is
either untouched from the starting store or matched by a COMPLETED job. -/
def TranscriptInv (db0 db : DB) : Prop :=
  ∀ e' ∈ db.episodes, ∀ t : String, e'.transcript = some t →
    e' ∈ db0.episodes ∨ ∃ j ∈ db.jobs, j.status = "COMPLETED" ∧
      e'.audio_url = some j.audio_url ∧ e'.transcript_url = j.transcript_uri

theorem completeJob_provenance (fetchData : TranscriptionJob → Option (List String))
    (db0 : DB) (hnodup0 : (db0.jobs.map (fun j => j.job_name)).Nodup)
    (db : DB) (job : TranscriptionJob) (hjob : job ∈ db0.jobs)
    (hkeys : db.jobs.map jobKey = db0.jobs.map jobKey)
    (hinv : TranscriptInv db0 db) :
    (completeJob fetchData db job).jobs.map jobKey = db0.jobs.map jobKey ∧
    TranscriptInv db0 (completeJob fetchData db job) := by
  unfold completeJob
  split
  · exact ⟨hkeys, hinv⟩
  · rename_i turi hturi
    split
    · exact ⟨hkeys, hinv⟩
    · rename_i items hitems
      dsimp only
      split
      · exact ⟨hkeys, hinv⟩
      · split
        · constructor
          · rw [completeFirstJob_keys]
            exact hkeys
          · intro e' he' t ht
            rcases mem_attachTranscriptFirst _ _ _ _ _ he' with hold | ⟨e0, he0, hcond, heq⟩
            · rcases hinv e' hold t ht with h | ⟨j, hjmem, hjc, hja, hjt⟩
              · exact Or.inl h
              · exact Or.inr ⟨j, completed_mem_completeFirstJob _ _ _ hjc hjmem, hjc, hja, hjt⟩
            · right
              have hkey_mem : jobKey job ∈ db.jobs.map jobKey := by
                rw [hkeys]
                exact List.mem_map_of_mem _ hjob
              obtain ⟨r, hrmem, hrkey⟩ := List.mem_map.mp hkey_mem
              have hrname : r.job_name = job.job_name := congrArg (fun k => k.1) hrkey
              have hraudio : r.audio_url = job.audio_url := by
                have := congrArg (fun k => k.2.1) hrkey
                simpa [jobKey] using this
              have hrturi : r.transcript_uri = job.transcript_uri := by
                have := congrArg (fun k => k.2.2.2) hrkey
                simpa [jobKey] using this
              have hnodup : (db.jobs.map (fun j => j.job_name)).Nodup := by
                rw [names_eq_of_keys_eq db.jobs db0.jobs hkeys]
                exact hnodup0
              refine ⟨{ r with status := "COMPLETED" },
                flip_mem_completeFirstJob db.jobs job.job_name r hrmem hrname hnodup,
                rfl, ?_, ?_⟩
              · rw [heq]
                simp only
                rw [hraudio]
                simpa using hcond
              · rw [heq]
                simp only
                rw [hrturi, hturi]
        · exact ⟨hkeys, hinv⟩

theorem foldl_completeJob_provenance (fetchData : TranscriptionJob → Option (List String))
    (db0 : DB) (hnodup0 : (db0.jobs.map (fun j => j.job_name)).Nodup)
    (todo : List TranscriptionJob) (htodo : ∀ job ∈ todo, job ∈ db0.jobs)
    (db : DB) (hkeys : db.jobs.map jobKey = db0.jobs.map jobKey)
    (hinv : TranscriptInv db0 db) :
    TranscriptInv db0 (todo.foldl (completeJob fetchData) db) := by
  induction todo generalizing db with
  | nil => exact hinv
  | cons job rest ih =>
    obtain ⟨hk, hi⟩ := completeJob_provenance fetchData db0 hnodup0 db job
      (htodo job (List.mem_cons_self _ _)) hkeys hinv
    exact ih (fun j hj => htodo j (List.mem_cons_of_mem _ hj)) _ hk hi

theorem mem_saveEpisodes (pid : Int) (eps store : List Episode) (e' : Episode)
    (he : e' ∈ saveEpisodes pid eps store) :
    e' ∈ store ∨ ∃ ep ∈ eps, e' = { ep with podcast_id := some pid } := by
  induction eps generalizing store with
  | nil => exact Or.inl he
  | cons ep rest ih =>
    simp only [saveEpisodes] at he
    split at he
    · rcases ih store he with h | ⟨ep1, h1, h2⟩
      · exact Or.inl h
      · exact Or.inr ⟨ep1, List.mem_cons_of_mem _ h1, h2⟩
    · rcases ih _ he with h | ⟨ep1, h1, h2⟩
      · rcases List.mem_append.mp h with h | h
        · exact Or.inl h
        · exact Or.inr ⟨ep, List.mem_cons_self _ _, List.mem_singleton.mp h⟩
      · exact Or.inr ⟨ep1, List.mem_cons_of_mem _ h1, h2⟩

theorem mem_get_episodes_since (md5hex : String → String) (formatTime : Int → String)
    (parseDate : String → Option Int) (now : Int) (since : Option Int)
    (maxEpisodes : Option Nat) (feed : List FeedEntry) (acc : List Episode)
    (ep : Episode)
    (he : ep ∈ get_episodes_since md5hex formatTime parseDate now since maxEpisodes feed acc) :
    ep ∈ acc ∨ ∃ entry ∈ feed, ∃ pub, ep = rssEpisode md5hex formatTime entry pub := by
  induction feed generalizing acc with
  | nil => exact Or.inl he
  | cons entry rest ih =>
    simp only [get_episodes_since] at he
    split at he
    · rcases ih acc he with h | ⟨e1, h1, h2⟩
      · exact Or.inl h
      · exact Or.inr ⟨e1, List.mem_cons_of_mem _ h1, h2⟩
    · split at he
      · rcases List.mem_append.mp he with h | h
        · exact Or.inl h
        · exact Or.inr ⟨entry, List.mem_cons_self _ _, _, List.mem_singleton.mp h⟩
      · rcases ih _ he with h | ⟨e1, h1, h2⟩
        · rcases List.mem_append.mp h with h | h
          · exact Or.inl h
          · exact Or.inr ⟨entry, List.mem_cons_self _ _, _, List.mem_singleton.mp h⟩
        · exact Or.inr ⟨e1, List.mem_cons_of_mem _ h1, h2⟩

theorem rssEpisode_transcript (md5hex : String → String) (formatTime : Int → String)
    (entry : FeedEntry) (pub : Int) (t : String)
    (h : (rssEpisode md5hex formatTime entry pub).transcript = some t) :
    entry.transcript_url.isSome = true ∧ entry.fetched = some t := by
  simp only [rssEpisode] at h
  cases htu : entry.transcript_url with
  | none =>
    rw [htu] at h
    simp at h
  | some turl =>
    rw [htu] at h
    dsimp only at h
    split at h
    · exact ⟨by simp [htu], h⟩
    · simp at h

/-- The empty store. -/
def emptyDB : DB :=
  { podcasts := [], episodes := [], subscriptions := [], processed := [], jobs := [] }

/-- Feed entry carrying its own transcript link, whose fetch succeeds. -/
def c4entry : FeedEntry :=
  { title := "E", published := "2024-01-01", summary := "s", link := "l",
    audio_url := some "http://e.mp3", transcript_url := some "http://t",
    fetched := some "feed text" }

/-- A poll of the feed containing `c4entry` into podcast 1. -/
def c4op : Op :=
  Op.fetchEpisodes (fun s => s) (fun t => toString t) (fun _ => some 100) 0 none none
    [c4entry] 1

/-- The stored episode produced by `c4op` on the empty store. -/
def c4ep : Episode :=
  { id := "E-100", title := "E", published := 100, summary := some "s", link := "l",
    audio_url := some "http://e.mp3", transcript_url := some "http://t",
    transcript := some "feed text", podcast_id := some 1 }

/-- Claim C4 as stated is false: the feed poller itself attaches a transcript
fetched from the feed's transcript link, so a store reachable by one ingestion
step holds an episode with a non-null transcript while the TranscriptionJob
table is empty — no completed transcription job ever existed. -/
theorem claim_C4_counterexample :
    (applyOp c4op emptyDB).episodes = [c4ep] ∧
    c4ep.transcript = some "feed text" ∧
    (applyOp c4op emptyDB).jobs = [] := by
  exact ⟨by decide, rfl, by decide⟩

/-- Claim C4 amended: a non-null transcript on an episode has exactly two
sources.  After any single operation, a transcribed episode either was already
in the store, or the operation was the completion step and some job flipped to
COMPLETED in the same commit matches it by audio URL (and supplied its
transcript URI), or the operation was a feed poll and some feed entry carried a
transcript URL whose fetch produced the transcript.  No other operation
attaches a transcript.  (Job names are assumed unique, as `job_name` is the
primary key.) -/
theorem claim_C4 (op : Op) (db : DB) (e' : Episode) (t : String)
    (hnodup : (db.jobs.map (fun j => j.job_name)).Nodup)
    (he : e' ∈ (applyOp op db).episodes) (ht : e'.transcript = some t) :
    e' ∈ db.episodes ∨
    (∃ fd, op = Op.processTranscripts fd ∧
      ∃ j ∈ (applyOp op db).jobs, j.status = "COMPLETED" ∧
        e'.audio_url = some j.audio_url ∧ e'.transcript_url = j.transcript_uri) ∨
    (∃ md5hex formatTime parseDate now since maxEpisodes feed pid,
      op = Op.fetchEpisodes md5hex formatTime parseDate now since maxEpisodes feed pid ∧
      ∃ entry ∈ feed, entry.transcript_url.isSome = true ∧ entry.fetched = some t ∧
        e'.transcript_url = entry.transcript_url ∧ e'.title = entry.title) := by
  cases op with
  | fetchEpisodes md5hex formatTime parseDate now since maxEpisodes feed pid =>
    simp only [applyOp, pollFeed] at he
    rcases mem_saveEpisodes _ _ _ _ he with h | ⟨ep, hep, heq⟩
    · exact Or.inl h
    · rcases mem_get_episodes_since _ _ _ _ _ _ _ _ _ hep with h0 | ⟨entry, hentry, pub, hrss⟩
      · simp at h0
      · subst heq
        subst hrss
        obtain ⟨h1, h2⟩ := rssEpisode_transcript md5hex formatTime entry pub t ht
        exact Or.inr (Or.inr ⟨md5hex, formatTime, parseDate, now, since, maxEpisodes,
          feed, pid, rfl, entry, hentry, h1, h2, rfl, rfl⟩)
  | fetchTranscripts o bE bT =>
    simp only [applyOp, fetch_transcripts_run] at he
    exact Or.inl he
  | processTranscripts fd =>
    simp only [applyOp, process_completed_jobs] at he ⊢
    have hfold := foldl_completeJob_provenance fd db hnodup (jobs_to_check db)
      (fun j hj => (List.mem_filter.mp hj).1) db rfl
      (fun e0 he0 t0 _ => Or.inl he0)
    rcases hfold e' he t ht with h | ⟨j, hjm, hjc, hja, hjt⟩
    · exact Or.inl h
    · exact Or.inr (Or.inl ⟨fd, rfl, j, hjm, hjc, hja, hjt⟩)
  | subscribeOp now u pid prefs =>
    simp only [applyOp] at he
    rw [(subscribe_fields db now u pid prefs).2.1] at he
    exact Or.inl he
  | unsubscribeOp now u pid =>
    simp only [applyOp] at he
    rw [(unsubscribe_fields db now u pid).2.1] at he
    exact Or.inl he
  | updatePrefsOp now u pid prefs =>
    simp only [applyOp] at he
    rw [(update_prefs_fields db now u pid prefs).2.1] at he
    exact Or.inl he
  | immediateOp clock oracle =>
    simp only [applyOp, process_immediate_notifications_logic] at he
    rw [(immediateForPodcasts_fields clock oracle _ ⟨db, 0, []⟩).1] at he
    exact Or.inl he
  | dailyOp clock sendOk =>
    simp only [applyOp, process_daily_digest_logic] at he
    rw [(process_digest_fields "daily" 86400 clock sendOk db).1] at he
    exact Or.inl he
  | weeklyOp clock sendOk =>
    simp only [applyOp, process_weekly_digest_logic] at he
    rw [(process_digest_fields "weekly" (7 * 86400) clock sendOk db).1] at he
    exact Or.inl he

/-- Witness for claim C4 at the concrete ingestion step of the counterexample
store. -/
theorem claim_C4_witness :
    (emptyDB.jobs.map (fun j => j.job_name)).Nodup ∧
    c4ep ∈ (applyOp c4op emptyDB).episodes ∧
    (c4ep ∈ emptyDB.episodes ∨
      (∃ fd, c4op = Op.processTranscripts fd ∧
        ∃ j ∈ (applyOp c4op emptyDB).jobs, j.status = "COMPLETED" ∧
          c4ep.audio_url = some j.audio_url ∧ c4ep.transcript_url = j.transcript_uri) ∨
      (∃ md5hex formatTime parseDate now since maxEpisodes feed pid,
        c4op = Op.fetchEpisodes md5hex formatTime parseDate now since maxEpisodes feed pid ∧
        ∃ entry ∈ feed, entry.transcript_url.isSome = true ∧
          entry.fetched = some "feed text" ∧
          c4ep.transcript_url = entry.transcript_url ∧ c4ep.title = entry.title)) :=
  ⟨by decide, by decide,
   claim_C4 c4op emptyDB c4ep "feed text" (by decide) (by decide) rfl⟩

/-! ## analyze_transcripts.py : message splitting for Telegram delivery

Messages are modeled as their character lists (Python `len` counts
characters).  `py_split` is `str.split(sep)` for a non-empty separator and
`py_strip` is `str.strip()`. -/

/-- The whitespace characters removed by Python `str.strip()`. -/
def pySpace (c : Char) : Bool :=
  c == ' ' || c == '\t' || c == '\n' || c == '\r' || c == '\x0b' || c == '\x0c'

/-- Python `str.strip()`. -/
def py_strip (s : List Char) : List Char :=
  ((s.dropWhile pySpace).reverse.dropWhile pySpace).reverse

/-- Whether `s` starts with `sep`. -/
def startsWithSep : List Char → List Char → Bool
  | _, [] => true
  | [], _ :: _ => false
  | c :: cs, d :: ds => c == d && startsWithSep cs ds

/-- Python `str.split(sep)` for a non-empty separator: scan left to right,
cutting at each non-overlapping occurrence of `sep` and keeping empty pieces. -/
def py_splitGo (sep : List Char) : List Char → List Char → List (List Char)
  | [], cur => [cur.reverse]
  | c :: cs, cur =>
    if startsWithSep (c :: cs) sep && decide (sep ≠ []) then
      cur.reverse :: py_splitGo sep (List.drop (sep.length - 1) cs) []
    else
      py_splitGo sep cs (c :: cur)
termination_by s _ => s.length
decreasing_by
  · simp only [List.length_drop, List.length_cons]
    omega
  · simp only [List.length_cons]
    omega

/-- Python `str.split(sep)`. -/
def py_split (sep s : List Char) : List (List Char) :=
  py_splitGo sep s []

/-- The paragraph-packing loop of analyze_transcripts.py `split_message`: when
adding a paragraph would overflow a non-empty chunk, flush the chunk (stripped)
and start over with the paragraph; otherwise append the paragraph after a
blank line (or start the chunk with it). -/
def smLoop (max_length : Nat) :
    List (List Char) → List Char → List (List Char) → List (List Char)
  | [], current, chunks =>
    if current ≠ [] then chunks ++ [py_strip current] else chunks
  | p :: rest, current, chunks =>
    if decide (max_length < current.length + p.length + 2) && !current.isEmpty then
      smLoop max_length rest p (chunks ++ [py_strip current])
    else if current.isEmpty then
      smLoop max_length rest p chunks
    else
      smLoop max_length rest (current ++ '\n' :: '\n' :: p) chunks

/-- analyze_transcripts.py `split_message`: a message within the bound is one
chunk, otherwise split on blank lines and greedily pack paragraphs. -/
def split_message (message : List Char) (max_length : Nat) : List (List Char) :=
  if message.length ≤ max_length then [message]
  else smLoop max_length (py_split ['\n', '\n'] message) [] []

theorem py_strip_length_le (s : List Char) : (py_strip s).length ≤ s.length := by
  unfold py_strip
  calc ((s.dropWhile pySpace).reverse.dropWhile pySpace).reverse.length
      = ((s.dropWhile pySpace).reverse.dropWhile pySpace).length := by
        rw [List.length_reverse]
    _ ≤ (s.dropWhile pySpace).reverse.length :=
        (List.dropWhile_sublist _).length_le
    _ = (s.dropWhile pySpace).length := by rw [List.length_reverse]
    _ ≤ s.length := (List.dropWhile_sublist _).length_le

theorem smLoop_chunks (max_length : Nat) (allP : List (List Char)) :
    ∀ (paras : List (List Char)) (current : List Char) (chunks : List (List Char)),
      (∀ p ∈ paras, p ∈ allP) →
      (current = [] ∨ current.length ≤ max_length ∨ current ∈ allP) →
      (∀ c ∈ chunks, c.length ≤ max_length ∨ c ∈ allP.map py_strip) →
      ∀ c ∈ smLoop max_length paras current chunks,
        c.length ≤ max_length ∨ c ∈ allP.map py_strip := by
  intro paras
  induction paras with
  | nil =>
    intro current chunks hsub hcur hch c hc
    simp only [smLoop] at hc
    split at hc
    · rcases List.mem_append.mp hc with h | h
      · exact hch c h
      · have hc' := List.mem_singleton.mp h
        subst hc'
        rcases hcur with rfl | hlen | hmem
        · rename_i hne
          exact absurd rfl hne
        · exact Or.inl (le_trans (py_strip_length_le current) hlen)
        · exact Or.inr (List.mem_map_of_mem _ hmem)
    · exact hch c hc
  | cons p rest ih =>
    intro current chunks hsub hcur hch c hc
    have hsub' : ∀ q ∈ rest, q ∈ allP := fun q hq => hsub q (List.mem_cons_of_mem _ hq)
    have hp : p ∈ allP := hsub p (List.mem_cons_self _ _)
    simp only [smLoop] at hc
    split at hc
    · rename_i hfl
      refine ih p (chunks ++ [py_strip current]) hsub' (Or.inr (Or.inr hp)) ?_ c hc
      intro c' hc'
      rcases List.mem_append.mp hc' with h | h
      · exact hch c' h
      · have hc'' := List.mem_singleton.mp h
        subst hc''
        rcases hcur with rfl | hlen | hmem
        · simp at hfl
        · exact Or.inl (le_trans (py_strip_length_le current) hlen)
        · exact Or.inr (List.mem_map_of_mem _ hmem)
    · split at hc
      · exact ih p chunks hsub' (Or.inr (Or.inr hp)) hch c hc
      · rename_i hnfl hne
        have hlen : (current ++ '\n' :: '\n' :: p).length ≤ max_length := by
          have hempty : current.isEmpty = false := by
            simpa using hne
          have hdec : decide (max_length < current.length + p.length + 2) = false := by
            by_contra hcon
            apply hnfl
            simp only [Bool.and_eq_true, Bool.not_eq_true']
            constructor
            · simpa using hcon
            · exact hempty
          have : ¬(max_length < current.length + p.length + 2) := by
            simpa using hdec
          simp only [List.length_append, List.length_cons]
          omega
        exact ih (current ++ '\n' :: '\n' :: p) chunks hsub'
          (Or.inr (Or.inl hlen)) hch c hc

theorem dropWhile_pySpace_replicate_a (n : Nat) :
    List.dropWhile pySpace (List.replicate n 'a') = List.replicate n 'a' := by
  cases n with
  | zero => rfl
  | succ m =>
    have ha : pySpace 'a' = false := by decide
    rw [List.replicate_succ, List.dropWhile_cons, ha]
    simp

theorem py_strip_replicate_a (n : Nat) :
    py_strip (List.replicate n 'a') = List.replicate n 'a' := by
  unfold py_strip
  rw [dropWhile_pySpace_replicate_a, List.reverse_replicate,
    dropWhile_pySpace_replicate_a, List.reverse_replicate]

theorem py_splitGo_no_newline (s cur : List Char)
    (h : ∀ c ∈ s, (c == '\n') = false) :
    py_splitGo ['\n', '\n'] s cur = [cur.reverse ++ s] := by
  induction s generalizing cur with
  | nil => simp [py_splitGo]
  | cons c cs ih =>
    have hc := h c (List.mem_cons_self _ _)
    have hstart : startsWithSep (c :: cs) ['\n', '\n'] = false := by
      simp [startsWithSep, hc]
    rw [py_splitGo, if_neg (by simp [hstart])]
    rw [ih _ (fun x hx => h x (List.mem_cons_of_mem _ hx))]
    simp

theorem py_splitGo_all_newlines (k : Nat) :
    py_splitGo ['\n', '\n'] (List.replicate (2 * k) '\n') [] =
      List.replicate (k + 1) ([] : List Char) := by
  induction k with
  | zero => simp [py_splitGo]
  | succ m ih =>
    have hrep : List.replicate (2 * (m + 1)) '\n' =
        '\n' :: '\n' :: List.replicate (2 * m) '\n' := by
      rw [show 2 * (m + 1) = (2 * m + 1) + 1 from by omega]
      rw [List.replicate_succ, List.replicate_succ]
    rw [hrep, py_splitGo, if_pos (by simp [startsWithSep])]
    simp only [List.length_cons, List.length_nil, List.drop_succ_cons, List.drop_zero,
      List.reverse_nil]
    rw [ih]
    rfl

theorem smLoop_single (ml : Nat) (p : List Char) (hp : p ≠ []) :
    smLoop ml [p] [] [] = [py_strip p] := by
  simp [smLoop, hp]

theorem smLoop_empty_paras (ml m : Nat) (chunks : List (List Char)) :
    smLoop ml (List.replicate m ([] : List Char)) [] chunks = chunks := by
  induction m with
  | zero => simp [smLoop]
  | succ n ih =>
    rw [List.replicate_succ]
    simp [smLoop, ih]

/-- Claim C10 as stated is false: a message that is one 4097-character
paragraph is returned as a single chunk of length 4097 > 4096 (the split never
cuts inside a paragraph), and a message of 4098 newline characters (all-empty
paragraphs) yields the empty chunk list rather than a non-empty one. -/
theorem claim_C10_counterexample :
    split_message (List.replicate 4097 'a') 4096 = [List.replicate 4097 'a'] ∧
    4096 < (List.replicate 4097 'a').length ∧
    split_message (List.replicate 4098 '\n') 4096 = [] := by
  refine ⟨?_, by rw [List.length_replicate]; omega, ?_⟩
  · unfold split_message
    rw [if_neg (by rw [List.length_replicate]; omega)]
    rw [py_split, py_splitGo_no_newline _ _ ?hnl]
    case hnl =>
      intro c hc
      rw [List.eq_of_mem_replicate hc]
      decide
    simp only [List.reverse_nil, List.nil_append]
    rw [smLoop_single _ _ (by
      apply List.ne_nil_of_length_pos
      rw [List.length_replicate]
      omega), py_strip_replicate_a]
  · unfold split_message
    rw [if_neg (by rw [List.length_replicate]; omega)]
    rw [py_split, show (4098 : Nat) = 2 * 2049 from by norm_num,
      py_splitGo_all_newlines, smLoop_empty_paras]

/-- Claim C10 amended: a message within the bound is returned as the single
chunk, and every chunk of the splitting either respects the bound or is a
single (stripped) paragraph of the original message — only a paragraph that
alone exceeds the bound produces an oversized chunk, and a message of only
empty paragraphs produces no chunks. -/
theorem claim_C10 (message : List Char) (max_length : Nat) :
    (message.length ≤ max_length → split_message message max_length = [message]) ∧
    (∀ c ∈ split_message message max_length,
      c.length ≤ max_length ∨ c ∈ (py_split ['\n', '\n'] message).map py_strip) := by
  constructor
  · intro h
    simp [split_message, h]
  · intro c hc
    by_cases h : message.length ≤ max_length
    · simp only [split_message, if_pos h, List.mem_singleton] at hc
      subst hc
      exact Or.inl h
    · simp only [split_message, if_neg h] at hc
      exact smLoop_chunks max_length (py_split ['\n', '\n'] message)
        (py_split ['\n', '\n'] message) [] [] (fun p hp => hp) (Or.inl rfl)
        (by simp) c hc

/-- Witness for claim C10 at a short message and at an over-long two-paragraph
message. -/
theorem claim_C10_witness :
    (['h', 'i'].length ≤ 4096 → split_message ['h', 'i'] 4096 = [['h', 'i']]) ∧
    split_message ['h', 'i'] 4096 = [['h', 'i']] :=
  ⟨(claim_C10 ['h', 'i'] 4096).1, (claim_C10 ['h', 'i'] 4096).1 (by decide)⟩

end PodcastFetcher
